import Mathlib

/-!
Verification of the Wikilon runtime core (src/wikilon-runtime) against its
specification.  The development shallowly embeds the C sources: the 32-bit
value words become `Nat` with explicit bounds, the context arena becomes a
byte-addressed memory `Nat → Nat`, and the free-list allocator (whose source
file is not part of the sources, only its declarations in wikrt.h) is
modelled as a bump allocator that always succeeds and tracks allocated and
freed byte counts exactly as `wikrt_alloc` and `wikrt_free` do.

Bitwise operations of the C code that combine disjoint bit fields (such as
`(nDigits << 1 | sign) << 8 | WIKRT_OTAG_BIGINT`) are embedded as arithmetic
on base-2 digits: for disjoint fields, bitwise or coincides with addition,
and shifts coincide with multiplication and division by powers of two.
-/

/-- wikrt_err from wikilon-runtime.h: error results of the API. -/
inductive Err where
  | OK | INVAL | CXFULL | TYPE_ERROR | BUFFSZ | IMPL | PENDING
  deriving DecidableEq, Repr

/-- Byte-addressed context memory. -/
def Mem : Type := Nat → Nat

/-- Read one byte. The mask keeps reads of uninitialised cells inside 0..255. -/
def readByte (m : Mem) (a : Nat) : Nat := m a % 256

/-- Write one byte. -/
def writeByte (m : Mem) (a b : Nat) : Mem :=
  fun x => if x = a then b % 256 else m x

/-- Write a list of bytes at consecutive addresses (the memcpy of the C code). -/
def writeBytes (m : Mem) (a : Nat) : List Nat → Mem
  | [] => m
  | b :: bs => writeBytes (writeByte m a b) (a + 1) bs

/-- Read `n` consecutive bytes. -/
def readBytes (m : Mem) (a : Nat) : Nat → List Nat
  | 0 => []
  | n + 1 => readByte m a :: readBytes m (a + 1) n

/-- Read a 32-bit little-endian word, as the C code reads a `wikrt_val`. -/
def readWord (m : Mem) (a : Nat) : Nat :=
  readByte m a + 256 * readByte m (a + 1) + 65536 * readByte m (a + 2) +
    16777216 * readByte m (a + 3)

/-- Store a 32-bit little-endian word. -/
def writeWord (m : Mem) (a w : Nat) : Mem :=
  fun x =>
    if x = a then w % 256
    else if x = a + 1 then w / 256 % 256
    else if x = a + 2 then w / 65536 % 256
    else if x = a + 3 then w / 16777216 % 256
    else m x

/-- Content of a NUL-terminated C string buffer: the bytes before the first 0. -/
def cstring (l : List Nat) : List Nat := l.takeWhile (fun b => b ≠ 0)

-- value tags, wikrt.h
abbrev WIKRT_O : Nat := 1
abbrev WIKRT_P : Nat := 3
abbrev WIKRT_PL : Nat := 5
abbrev WIKRT_PR : Nat := 7
abbrev WIKRT_VOID : Nat := WIKRT_O
abbrev WIKRT_UNIT : Nat := WIKRT_P
abbrev WIKRT_UNIT_INL : Nat := WIKRT_PL
abbrev WIKRT_UNIT_INR : Nat := WIKRT_PR
abbrev WIKRT_CELLSIZE : Nat := 8
abbrev WIKRT_SMALLINT_MAX : Int := 2 ^ 30 - 1
abbrev WIKRT_SMALLINT_MIN : Int := -WIKRT_SMALLINT_MAX

-- object tags, wikrt.h
abbrev WIKRT_OTAG_BIGINT : Nat := 78
abbrev WIKRT_OTAG_DEEPSUM : Nat := 83
abbrev WIKRT_OTAG_BLOCK : Nat := 91
abbrev WIKRT_OTAG_OPVAL : Nat := 39
abbrev WIKRT_OTAG_SEAL : Nat := 36
abbrev WIKRT_OTAG_SEAL_SM : Nat := 58
abbrev WIKRT_OTAG_ARRAY : Nat := 86
abbrev WIKRT_OTAG_BINARY : Nat := 56
abbrev WIKRT_OTAG_TEXT : Nat := 34
abbrev WIKRT_OTAG_STOWAGE : Nat := 64
abbrev WIKRT_DEEPSUMR : Nat := 3
abbrev WIKRT_DEEPSUML : Nat := 2
abbrev WIKRT_BIGINT_DIGIT : Nat := 1000000000

/-- wikrt_vaddr: the address part of a value word (the bits above the tag). -/
def wikrt_vaddr (v : Nat) : Nat := v - v % 8

/-- wikrt_vtag: the low three tag bits of a value word. -/
def wikrt_vtag (v : Nat) : Nat := v % 8

/-- wikrt_tag_addr: or of a tag below 8 with a cell-aligned address. -/
def wikrt_tag_addr (t a : Nat) : Nat := a + t

/-- Two's-complement 32-bit word of an integer, for casts int32 → uint32. -/
def toWord (n : Int) : Nat := (n % (2 ^ 32 : Int)).toNat

/-- Signed reading of a 32-bit word, for casts uint32 → int32. -/
def sint32 (w : Nat) : Int :=
  if w % 2 ^ 32 < 2 ^ 31 then (w % 2 ^ 32 : Nat) else (w % 2 ^ 32 : Nat) - 2 ^ 32

/-- wikrt_i2v: a small integer is stored shifted left by one. -/
def wikrt_i2v (n : Int) : Nat := toWord (2 * n)

/-- wikrt_v2i: arithmetic shift right by one, i.e. signed floor division by 2. -/
def wikrt_v2i (v : Nat) : Int := Int.fdiv (sint32 v) 2

/-- wikrt_copy_shallow: small integers and address-zero constants. -/
def wikrt_copy_shallow (v : Nat) : Bool := v % 2 = 0 || wikrt_vaddr v = 0

/-- WIKRT_CELLBUFF: round a size up to a whole number of cells. -/
def cellbuff (sz : Nat) : Nat := (sz + 7) / 8 * 8

/-- A context: its memory, the bump allocation pointer of the modelled
allocator, and the byte counters kept by `wikrt_alloc` and `wikrt_free`. -/
structure Cx where
  mem : Mem
  next : Nat
  bytesAlloc : Nat
  bytesFreed : Nat

/-- Well-formed context: the allocation pointer is nonzero and cell aligned,
so fresh addresses can carry value tags. -/
def Cx.WF (cx : Cx) : Prop := 0 < cx.next ∧ cx.next % 8 = 0

/-- The empty context memory. -/
def initMem : Mem := fun _ => 0

/-- A fresh context. Address zero is reserved for the unit constants. -/
def initCx : Cx := { mem := initMem, next := 8, bytesAlloc := 0, bytesFreed := 0 }

/-- Modelled from the spec: wikrt_alloc over the free-list structure
(wikrt_fl_alloc and its source file are not among the sources). The model is
a bump allocator that always succeeds, returns fresh cell-aligned nonzero
addresses, buffers the size to whole cells, and counts allocated bytes as
`wikrt_alloc` does. -/
def wikrt_alloc (cx : Cx) (sz : Nat) : Nat × Cx :=
  let szb := cellbuff sz
  (cx.next, { cx with next := cx.next + szb, bytesAlloc := cx.bytesAlloc + szb })

/-- wikrt_free: returns a block to the free lists (modelled: only the byte
counter changes; the bytes keep their content, as in the C code). -/
def wikrt_free (cx : Cx) (sz : Nat) (_addr : Nat) : Cx :=
  { cx with bytesFreed := cx.bytesFreed + cellbuff sz }

/-- Store one word into context memory. -/
def setWord (cx : Cx) (a w : Nat) : Cx := { cx with mem := writeWord cx.mem a w }

/-- wikrt_alloc_cellval: allocate one cell holding two words and tag its address. -/
def wikrt_alloc_cellval (cx : Cx) (tag v0 v1 : Nat) : Nat × Cx :=
  let (addr, cx1) := wikrt_alloc cx WIKRT_CELLSIZE
  (wikrt_tag_addr tag addr, setWord (setWord cx1 addr v0) (addr + 4) v1)

/-- wikrt_mkotag_bigint: `((nDigits << 1) | sign) << 8 | WIKRT_OTAG_BIGINT`
as arithmetic on the disjoint bit fields. -/
def wikrt_mkotag_bigint (positive : Bool) (nDigits : Nat) : Nat :=
  (2 * nDigits + (if positive then 0 else 1)) * 256 + WIKRT_OTAG_BIGINT

/-- wikrt_alloc_medint: allocate a bignum of two or three base 10^9 digits. -/
def wikrt_alloc_medint (cx : Cx) (positive : Bool) (d0 d1 d2 : Nat) :
    Err × Nat × Cx :=
  if d2 = 0 then
    let allocSz := 4 + 2 * 4
    let (addr, cx1) := wikrt_alloc cx allocSz
    let cx2 := setWord cx1 addr (wikrt_mkotag_bigint positive 2)
    let cx3 := setWord cx2 (addr + 4) d0
    let cx4 := setWord cx3 (addr + 8) d1
    (Err.OK, wikrt_tag_addr WIKRT_O addr, cx4)
  else
    let allocSz := 4 + 3 * 4
    let (addr, cx1) := wikrt_alloc cx allocSz
    let cx2 := setWord cx1 addr (wikrt_mkotag_bigint positive 3)
    let cx3 := setWord cx2 (addr + 4) d0
    let cx4 := setWord cx3 (addr + 8) d1
    let cx5 := setWord cx4 (addr + 12) d2
    (Err.OK, wikrt_tag_addr WIKRT_O addr, cx5)

/-- wikrt_peek_medint: read sign and up to three digits of an integer value.
Returns (status, positive, d0, d1, d2). -/
def wikrt_peek_medint (cx : Cx) (v : Nat) : Err × Bool × Nat × Nat × Nat :=
  if v % 2 = 0 then
    let n := wikrt_v2i v
    let positive := decide (0 ≤ n)
    let m := n.natAbs
    (Err.OK, positive, m % WIKRT_BIGINT_DIGIT, m / WIKRT_BIGINT_DIGIT, 0)
  else
    let tag := wikrt_vtag v
    let addr := wikrt_vaddr v
    let otag := readWord cx.mem addr
    if addr ≠ 0 ∧ tag = WIKRT_O ∧ otag % 256 = WIKRT_OTAG_BIGINT then
      let nDigits := otag / 512
      let positive := decide (otag / 256 % 2 = 0)
      let d0 := readWord cx.mem (addr + 4)
      let d1 := readWord cx.mem (addr + 8)
      let d2 := if nDigits > 2 then readWord cx.mem (addr + 12) else 0
      (if nDigits > 3 then Err.BUFFSZ else Err.OK, positive, d0, d1, d2)
    else (Err.TYPE_ERROR, false, 0, 0, 0)

/-- _wikrt_alloc_i32: small integers stay shallow, others become two digits. -/
def wikrt_alloc_i32 (cx : Cx) (n : Int) : Err × Nat × Cx :=
  if WIKRT_SMALLINT_MIN ≤ n ∧ n ≤ WIKRT_SMALLINT_MAX then
    (Err.OK, wikrt_i2v n, cx)
  else if n ≠ -(2 ^ 31) then
    let positive := decide (0 ≤ n)
    let m := n.natAbs
    let d0 := m % WIKRT_BIGINT_DIGIT
    let d1 := m / WIKRT_BIGINT_DIGIT
    wikrt_alloc_medint cx positive d0 d1 0
  else
    wikrt_alloc_medint cx false 147483648 2 0

/-- _wikrt_alloc_i64: small integers stay shallow, others get two or three digits. -/
def wikrt_alloc_i64 (cx : Cx) (n : Int) : Err × Nat × Cx :=
  if WIKRT_SMALLINT_MIN ≤ n ∧ n ≤ WIKRT_SMALLINT_MAX then
    (Err.OK, wikrt_i2v n, cx)
  else if n ≠ -(2 ^ 63) then
    let positive := decide (0 ≤ n)
    let m := n.natAbs
    let d0 := m % WIKRT_BIGINT_DIGIT
    let m1 := m / WIKRT_BIGINT_DIGIT
    let d1 := m1 % WIKRT_BIGINT_DIGIT
    let d2 := m1 / WIKRT_BIGINT_DIGIT
    wikrt_alloc_medint cx positive d0 d1 d2
  else
    wikrt_alloc_medint cx false 854775808 223372036 9

/-- _wikrt_peek_i32: read an integer value as int32, saturating on overflow. -/
def wikrt_peek_i32 (cx : Cx) (v : Nat) : Err × Int :=
  if v % 2 = 0 then (Err.OK, wikrt_v2i v)
  else
    let (st, positive, d0, d1, d2) := wikrt_peek_medint cx v
    if st ≠ Err.OK then (st, if positive then 2147483647 else -2147483648)
    else if positive then
      let overflow := d2 ≠ 0 ∨ d1 > 2 ∨ (d1 = 2 ∧ d0 > 147483647)
      if overflow then (Err.BUFFSZ, 2147483647)
      else (Err.OK, (d1 * WIKRT_BIGINT_DIGIT + d0 : Nat))
    else
      let underflow := d2 ≠ 0 ∨ d1 > 2 ∨ (d1 = 2 ∧ d0 > 147483648)
      if underflow then (Err.BUFFSZ, -2147483648)
      else (Err.OK, 0 - (d1 * WIKRT_BIGINT_DIGIT + d0 : Nat))

/-- _wikrt_peek_i64: read an integer value as int64, saturating on overflow. -/
def wikrt_peek_i64 (cx : Cx) (v : Nat) : Err × Int :=
  if v % 2 = 0 then (Err.OK, wikrt_v2i v)
  else
    let (st, positive, d0, d1, d2) := wikrt_peek_medint cx v
    if st ≠ Err.OK then
      (st, if positive then 9223372036854775807 else -9223372036854775808)
    else if d2 = 0 then
      let iAbs : Int := (d1 * WIKRT_BIGINT_DIGIT + d0 : Nat)
      (Err.OK, if positive then iAbs else -iAbs)
    else if positive then
      let overflow := d2 > 9 ∨ (d2 = 9 ∧ (d1 > 223372036 ∨ (d1 = 223372036 ∧ d0 > 854775807)))
      if overflow then (Err.BUFFSZ, 9223372036854775807)
      else (Err.OK, (d2 * (WIKRT_BIGINT_DIGIT * WIKRT_BIGINT_DIGIT) + d1 * WIKRT_BIGINT_DIGIT + d0 : Nat))
    else
      let underflow := d2 > 9 ∨ (d2 = 9 ∧ (d1 > 223372036 ∨ (d1 = 223372036 ∧ d0 > 854775808)))
      if underflow then (Err.BUFFSZ, -9223372036854775808)
      else (Err.OK, 0 - (d2 * (WIKRT_BIGINT_DIGIT * WIKRT_BIGINT_DIGIT) + d1 * WIKRT_BIGINT_DIGIT + d0 : Nat))

/-- _wikrt_alloc_istr: the source is an unimplemented stub that sets the
result to WIKRT_VOID and returns WIKRT_IMPL. -/
def wikrt_alloc_istr (cx : Cx) (_istr : List Nat) : Err × Nat × Cx :=
  (Err.IMPL, WIKRT_VOID, cx)

/-- _wikrt_alloc_sum: wrap one sum layer around a value. A product is re-tagged
in place; a deep-sum object with room shifts two direction bits into its tag;
otherwise a fresh deep-sum cell is allocated. -/
def wikrt_alloc_sum (cx : Cx) (inRight : Bool) (v : Nat) : Err × Nat × Cx :=
  let vtag := wikrt_vtag v
  let vaddr := wikrt_vaddr v
  let pv0 := readWord cx.mem vaddr
  if vtag = WIKRT_P then
    (Err.OK, wikrt_tag_addr (if inRight then WIKRT_PR else WIKRT_PL) vaddr, cx)
  else if vtag = WIKRT_O ∧ pv0 % 256 = WIKRT_OTAG_DEEPSUM ∧ pv0 < 2 ^ 30 then
    let s0 := pv0 / 256
    let sf := s0 * 4 + (if inRight then WIKRT_DEEPSUMR else WIKRT_DEEPSUML)
    (Err.OK, v, setWord cx vaddr (sf * 256 + WIKRT_OTAG_DEEPSUM))
  else
    let sf := if inRight then WIKRT_DEEPSUMR else WIKRT_DEEPSUML
    let (c, cx1) := wikrt_alloc_cellval cx WIKRT_O (sf * 256 + WIKRT_OTAG_DEEPSUM) v
    (Err.OK, c, cx1)

/-- _wikrt_split_sum: unwrap one sum layer. Returns (status, inRight, value). -/
def wikrt_split_sum (cx : Cx) (c : Nat) : Err × Bool × Nat × Cx :=
  let tag := wikrt_vtag c
  let addr := wikrt_vaddr c
  if tag = WIKRT_PL then (Err.OK, false, wikrt_tag_addr WIKRT_P addr, cx)
  else if tag = WIKRT_PR then (Err.OK, true, wikrt_tag_addr WIKRT_P addr, cx)
  else if tag = WIKRT_O then
    let otag := readWord cx.mem addr
    if otag % 256 = WIKRT_OTAG_DEEPSUM then
      let s0 := otag / 256
      let inRight := decide (s0 % 4 = 3)
      let sf := s0 / 4
      if sf = 0 then
        (Err.OK, inRight, readWord cx.mem (addr + 4), wikrt_free cx WIKRT_CELLSIZE addr)
      else
        (Err.OK, inRight, c, setWord cx addr (sf * 256 + WIKRT_OTAG_DEEPSUM))
    else if otag % 256 = WIKRT_OTAG_ARRAY then
      (Err.IMPL, false, WIKRT_VOID, cx)
    else (Err.TYPE_ERROR, false, WIKRT_VOID, cx)
  else (Err.TYPE_ERROR, false, WIKRT_VOID, cx)

/-- _wikrt_alloc_seal: seal a value with a token of `len` bytes. Tokens of at
most four bytes starting with a colon are packed into the tag word; other
tokens are copied inline after the cell. The C packs the token bytes with
`TAG(N) = (len > N) ? ((wikrt_val)s[N]) << (8*N) : 0` on plain char, which is
signed on the target: a byte at or above 0x80 converts to 0xFFFFFFxx before
the shift, so after the or its sign-extension bytes blanket the higher
fields. Byte by byte of the resulting word: byte 1 is s[1]; byte 2 is 0xFF
when s[1] is at or above 0x80, else s[2]; byte 3 is 0xFF when s[1] or s[2]
is at or above 0x80, else s[3] (the extension of s[3] itself is shifted out
of the 32-bit word). -/
def wikrt_alloc_seal (cx : Cx) (s : List Nat) (v : Nat) : Err × Nat × Cx :=
  let len := s.length
  if ¬(0 < len ∧ len < 64) then (Err.INVAL, WIKRT_VOID, cx)
  else if s.headD 0 = 58 ∧ len ≤ 4 then
    let tagN := fun n => if len > n then s.getD n 0 else 0
    let byte2 := if 128 ≤ tagN 1 then 255 else tagN 2
    let byte3 := if 128 ≤ tagN 1 ∨ 128 ≤ tagN 2 then 255 else tagN 3
    let tag := 16777216 * byte3 + 65536 * byte2 + 256 * tagN 1 + WIKRT_OTAG_SEAL_SM
    let (sv, cx1) := wikrt_alloc_cellval cx WIKRT_O tag v
    (Err.OK, sv, cx1)
  else
    let szTotal := WIKRT_CELLSIZE + len
    let (dst, cx1) := wikrt_alloc cx szTotal
    let cx2 := setWord cx1 dst (len * 256 + WIKRT_OTAG_SEAL)
    let cx3 := setWord cx2 (dst + 4) v
    let cx4 := { cx3 with mem := writeBytes cx3.mem (dst + 8) s }
    (Err.OK, wikrt_tag_addr WIKRT_O dst, cx4)

/-- _wikrt_split_seal: recover the token (as the NUL-terminated buffer the C
code fills) and the sealed value, freeing the wrapper. -/
def wikrt_split_seal (cx : Cx) (sv : Nat) : Err × List Nat × Nat × Cx :=
  let addr := wikrt_vaddr sv
  let tag := wikrt_vtag sv
  if tag ≠ WIKRT_O ∨ addr = 0 then (Err.TYPE_ERROR, [], WIKRT_VOID, cx)
  else
    let otag := readWord cx.mem addr
    if otag % 256 = WIKRT_OTAG_SEAL_SM then
      let v := readWord cx.mem (addr + 4)
      let buff := [58, otag / 256 % 256, otag / 65536 % 256, otag / 16777216 % 256]
      (Err.OK, cstring buff, v, wikrt_free cx WIKRT_CELLSIZE addr)
    else if otag % 256 = WIKRT_OTAG_SEAL then
      let len := otag / 256 % 64
      let v := readWord cx.mem (addr + 4)
      (Err.OK, cstring (readBytes cx.mem (addr + 8) len), v,
        wikrt_free cx (WIKRT_CELLSIZE + len) addr)
    else (Err.TYPE_ERROR, [], WIKRT_VOID, cx)

/-- Modelled from the spec: isControlChar of utf8.h (utf8.c is not among the
sources); the spec forbids U+0000..U+001F and U+007F as control characters. -/
def isControlChar (c : Nat) : Bool := c < 32 || c == 127

/-- Modelled from the spec: isReplacementChar of utf8.h (utf8.c is not among
the sources); the Unicode replacement character is U+FFFD. -/
def isReplacementChar (c : Nat) : Bool := c == 0xFFFD

/-- wikrt_token_char: valid codepoints for tokens. -/
def wikrt_token_char (c : Nat) : Bool :=
  !(c == 123 || c == 125 || isControlChar c || isReplacementChar c)

/-- wikrt_text_char: valid codepoints for texts (line feed allowed). -/
def wikrt_text_char (c : Nat) : Bool :=
  !((isControlChar c && !(c == 10)) || isReplacementChar c)

/-- UTF-8 encoding of one codepoint (specification side, used to state the
claims about textual inputs). -/
def utf8EncodeChar (c : Nat) : List Nat :=
  if c < 0x80 then [c]
  else if c < 0x800 then [0xC0 + c / 64, 0x80 + c % 64]
  else if c < 0x10000 then [0xE0 + c / 4096, 0x80 + c / 64 % 64, 0x80 + c % 64]
  else [0xF0 + c / 262144, 0x80 + c / 4096 % 64, 0x80 + c / 64 % 64, 0x80 + c % 64]

/-- UTF-8 encoding of a codepoint sequence. -/
def utf8Encode : List Nat → List Nat
  | [] => []
  | c :: cs => utf8EncodeChar c ++ utf8Encode cs

/-- Modelled from the spec: number of continuation bytes after a lead byte. -/
def utf8_more (b : Nat) : Nat :=
  if b < 0xC0 then 0 else if b < 0xE0 then 1 else if b < 0xF0 then 2
  else if b < 0xF8 then 3 else 0

/-- Modelled from the spec: recognise a UTF-8 continuation byte. -/
def utf8_cont (b : Nat) : Bool := 0x80 ≤ b && b < 0xC0

/-- Modelled from the spec: payload of a decoded sequence. -/
def utf8_decodeCp (b : Nat) (conts : List Nat) : Nat :=
  let lead := if b < 0x80 then b else if b < 0xE0 then b - 0xC0
    else if b < 0xF0 then b - 0xE0 else b - 0xF0
  conts.foldl (fun acc c => acc * 64 + (c - 0x80)) lead

/-- Modelled from the spec: utf8_step of utf8.c (not among the sources).
Decodes one codepoint from the byte stream, consuming its bytes; a malformed
or truncated sequence yields the Unicode replacement character U+FFFD, which
wikrt_text_char then rejects so that intro fails with INVAL. -/
def utf8_step : List Nat → Option (Nat × List Nat)
  | [] => none
  | b :: tl =>
    let k := utf8_more b
    if (tl.take k).length = k ∧ (tl.take k).all utf8_cont = true ∧ (b < 0x80 ∨ 0xC0 ≤ b)
    then some (utf8_decodeCp b (tl.take k), tl.drop k)
    else some (0xFFFD, tl)

/-- _wikrt_alloc_text: build the list value of the codepoints of a text,
validating each one; each codepoint becomes one PL cell, and the loop ends
with the right-unit terminator. -/
def wikrt_alloc_text_go (cx : Cx) (bs : List Nat) : Err × Nat × Cx :=
  match hs : utf8_step bs with
  | none => (Err.OK, WIKRT_UNIT_INR, cx)
  | some (cp, rest) =>
    if ¬ wikrt_text_char cp then (Err.INVAL, WIKRT_VOID, cx)
    else
      let (addr, cx1) := wikrt_alloc cx WIKRT_CELLSIZE
      let cx2 := setWord cx1 addr (wikrt_i2v (cp : Int))
      let res := wikrt_alloc_text_go cx2 rest
      (res.1, wikrt_tag_addr WIKRT_PL addr, setWord res.2.2 (addr + 4) res.2.1)
  termination_by bs.length
  decreasing_by
    rcases bs with _ | ⟨b, tl⟩
    · simp [utf8_step] at hs
    · simp only [utf8_step] at hs
      split at hs
      · simp only [Option.some.injEq, Prod.mk.injEq] at hs
        rw [← hs.2, List.length_cons, List.length_drop]
        omega
      · simp only [Option.some.injEq, Prod.mk.injEq] at hs
        rw [← hs.2, List.length_cons]
        omega

/-- _wikrt_alloc_text on a whole input. The byte list models the pair of the
C string and its size limit: it ends where the limit cuts the input. -/
def wikrt_alloc_text (cx : Cx) (bs : List Nat) : Err × Nat × Cx :=
  wikrt_alloc_text_go cx bs

/-- Modelled from the spec: wikrt_valid_token (wikilon-runtime.c is not among
the sources): 1..63 UTF-8 bytes, all codepoints passing wikrt_token_char. -/
def wikrt_valid_token (cs : List Nat) : Bool :=
  let len := (utf8Encode cs).length
  0 < len && len < 64 && cs.all wikrt_token_char

/-- Modelled from the spec: the public wikrt_wrap_seal entry point
(wikilon-runtime.c is not among the sources); it validates the token and
then seals through the internal _wikrt_alloc_seal. -/
def wikrt_wrap_seal (cx : Cx) (cs : List Nat) (v : Nat) : Err × Nat × Cx :=
  if wikrt_valid_token cs then wikrt_alloc_seal cx (utf8Encode cs) v
  else (Err.INVAL, WIKRT_VOID, cx)

/-- wikrt_block_rel: the WIKRT_BLOCK_RELEVANT bit (1 << 8) of a block header. -/
def wikrt_block_rel (v : Nat) : Bool := v / 256 % 2 == 1

/-- wikrt_block_aff: the WIKRT_BLOCK_AFFINE bit (1 << 9) of a block header. -/
def wikrt_block_aff (v : Nat) : Bool := v / 512 % 2 == 1

/-- WIKRT_OPVAL_LAZYKF: the lazy substructure bit (1 << 8) of an opval header. -/
def wikrt_opval_lazykf (v : Nat) : Bool := v / 256 % 2 == 1

/-- Tree view of the heap values walked by _wikrt_copy and _wikrt_drop: one
constructor per case of their dispatch (the unimplemented array and stowage
branches construct no values in this runtime and are omitted). -/
inductive V where
  | sm (n : Int)
  | base (t : Nat)
  | pair (tag : Nat) (a b : V)
  | deepsum (bits : Nat) (v : V)
  | sealsm (tag : Nat) (v : V)
  | seal (tok : List Nat) (v : V)
  | bigint (positive : Bool) (ds : List Nat)
  | block (hdr : Nat) (ops : V)
  | opval (hdr : Nat) (v : V)
  deriving DecidableEq, Repr

/-- _wikrt_copy: structural copy of a value. Shallow leaves are copied
verbatim; a block whose affine bit is set fails with TYPE_ERROR unless
`bCopyAff`; an opval without the lazy bit copies its content with the
affine checks suppressed, as in the source. -/
def wikrt_copyV (bCopyAff : Bool) : V → Except Err V
  | .sm n => .ok (.sm n)
  | .base t => .ok (.base t)
  | .pair t a b => do
    pure (.pair t (← wikrt_copyV bCopyAff a) (← wikrt_copyV bCopyAff b))
  | .deepsum s v => do pure (.deepsum s (← wikrt_copyV bCopyAff v))
  | .sealsm t v => do pure (.sealsm t (← wikrt_copyV bCopyAff v))
  | .seal tok v => do pure (.seal tok (← wikrt_copyV bCopyAff v))
  | .bigint p ds => .ok (.bigint p ds)
  | .block hdr ops =>
    if wikrt_block_aff hdr && !bCopyAff then .error Err.TYPE_ERROR
    else do pure (.block hdr (← wikrt_copyV bCopyAff ops))
  | .opval hdr v =>
    if wikrt_opval_lazykf hdr || bCopyAff then
      do pure (.opval hdr (← wikrt_copyV bCopyAff v))
    else do pure (.opval hdr (← wikrt_copyV true v))

/-- _wikrt_drop: structural destruction. A block whose relevant bit is set
fails with TYPE_ERROR unless `bDropRel`; an opval without the lazy bit drops
its content with the relevance checks suppressed, as in the source. -/
def wikrt_dropV (bDropRel : Bool) : V → Except Err Unit
  | .sm _ => .ok ()
  | .base _ => .ok ()
  | .pair _ a b => do
    _ ← wikrt_dropV bDropRel a
    wikrt_dropV bDropRel b
  | .deepsum _ v => wikrt_dropV bDropRel v
  | .sealsm _ v => wikrt_dropV bDropRel v
  | .seal _ v => wikrt_dropV bDropRel v
  | .bigint _ _ => .ok ()
  | .block hdr ops =>
    if wikrt_block_rel hdr && !bDropRel then .error Err.TYPE_ERROR
    else wikrt_dropV bDropRel ops
  | .opval hdr v =>
    if wikrt_opval_lazykf hdr || bDropRel then wikrt_dropV bDropRel v
    else wikrt_dropV true v

/-- A value contains an affine block that the copy walk actually checks:
blocks below an opval whose lazy bit is clear are exempt, their checks
being suppressed. -/
def affChecked (bCopyAff : Bool) : V → Bool
  | .sm _ => false
  | .base _ => false
  | .pair _ a b => affChecked bCopyAff a || affChecked bCopyAff b
  | .deepsum _ v => affChecked bCopyAff v
  | .sealsm _ v => affChecked bCopyAff v
  | .seal _ v => affChecked bCopyAff v
  | .bigint _ _ => false
  | .block hdr ops => (wikrt_block_aff hdr && !bCopyAff) || affChecked bCopyAff ops
  | .opval hdr v =>
    if wikrt_opval_lazykf hdr || bCopyAff then affChecked bCopyAff v
    else affChecked true v

/-- A value contains a relevant block that the drop walk actually checks. -/
def relChecked (bDropRel : Bool) : V → Bool
  | .sm _ => false
  | .base _ => false
  | .pair _ a b => relChecked bDropRel a || relChecked bDropRel b
  | .deepsum _ v => relChecked bDropRel v
  | .sealsm _ v => relChecked bDropRel v
  | .seal _ v => relChecked bDropRel v
  | .bigint _ _ => false
  | .block hdr ops => (wikrt_block_rel hdr && !bDropRel) || relChecked bDropRel ops
  | .opval hdr v =>
    if wikrt_opval_lazykf hdr || bDropRel then relChecked bDropRel v
    else relChecked true v

/-- Plain containment: the value holds a block with the affine bit set,
anywhere, as the claim words it. -/
def containsAffineBlock : V → Bool
  | .sm _ => false
  | .base _ => false
  | .pair _ a b => containsAffineBlock a || containsAffineBlock b
  | .deepsum _ v => containsAffineBlock v
  | .sealsm _ v => containsAffineBlock v
  | .seal _ v => containsAffineBlock v
  | .bigint _ _ => false
  | .block hdr ops => wikrt_block_aff hdr || containsAffineBlock ops
  | .opval _ v => containsAffineBlock v

/-- Modelled from the spec: wikrt_int_div (the arithmetic source file is not
among the sources; only its tests remain in testSuite.c). Division is floor
division, the remainder carries the sign of the divisor, and a zero divisor
fails with TYPE_ERROR. -/
def wikrt_int_div (dividend divisor : Int) : Except Err (Int × Int) :=
  if divisor = 0 then .error Err.TYPE_ERROR
  else .ok (Int.fdiv dividend divisor, Int.fmod dividend divisor)

/-- Iterated wrap-in-left through _wikrt_alloc_sum, for the deep-sum scenario. -/
def wrapLN : Nat → Nat × Cx → Nat × Cx
  | 0, s => s
  | n + 1, (v, cx) =>
    let r := wikrt_alloc_sum cx false v
    wrapLN n (r.2.1, r.2.2)

/-- Iterated unwrap through _wikrt_split_sum, recording statuses and tags. -/
def unwrapN : Nat → Nat × Cx → List (Err × Bool) × Nat × Cx
  | 0, (v, cx) => ([], v, cx)
  | n + 1, (v, cx) =>
    let r := wikrt_split_sum cx v
    let rec1 := unwrapN n (r.2.2.1, r.2.2.2)
    ((r.1, r.2.1) :: rec1.1, rec1.2.1, rec1.2.2)

/-- Value of a little-endian list of base 10^9 digits, the denotation of a
bignum digit array. -/
def bigintVal : List Nat → Nat
  | [] => 0
  | d :: ds => d + WIKRT_BIGINT_DIGIT * bigintVal ds

/-! ## Memory lemmas -/

theorem readByte_lt (m : Mem) (a : Nat) : readByte m a < 256 := by
  unfold readByte; omega

theorem readByte_writeWord (m : Mem) (a w x : Nat) :
    readByte (writeWord m a w) x =
      if x = a then w % 256
      else if x = a + 1 then w / 256 % 256
      else if x = a + 2 then w / 65536 % 256
      else if x = a + 3 then w / 16777216 % 256
      else readByte m x := by
  simp only [readByte, writeWord]
  repeat' split
  all_goals omega

theorem readByte_writeWord_out (m : Mem) (a w x : Nat)
    (h : x < a ∨ a + 4 ≤ x) : readByte (writeWord m a w) x = readByte m x := by
  rw [readByte_writeWord, if_neg (by omega), if_neg (by omega),
    if_neg (by omega), if_neg (by omega)]

theorem readWord_writeWord_self (m : Mem) (a w : Nat) (h : w < 4294967296) :
    readWord (writeWord m a w) a = w := by
  have h1 : a + 1 ≠ a := by omega
  have h2 : a + 2 ≠ a := by omega
  have h3 : a + 3 ≠ a := by omega
  have h21 : a + 2 ≠ a + 1 := by omega
  have h31 : a + 3 ≠ a + 1 := by omega
  have h32 : a + 3 ≠ a + 2 := by omega
  simp only [readWord, readByte_writeWord, if_pos rfl, if_neg h1, if_neg h2,
    if_neg h3, if_neg h21, if_neg h32, if_neg h31, eq_self_iff_true, ite_true]
  omega

theorem readWord_writeWord_out (m : Mem) (a w x : Nat)
    (h : x + 4 ≤ a ∨ a + 4 ≤ x) : readWord (writeWord m a w) x = readWord m x := by
  unfold readWord
  rw [readByte_writeWord_out m a w x (by omega),
    readByte_writeWord_out m a w (x + 1) (by omega),
    readByte_writeWord_out m a w (x + 2) (by omega),
    readByte_writeWord_out m a w (x + 3) (by omega)]

theorem readWord_lt (m : Mem) (a : Nat) : readWord m a < 4294967296 := by
  have h0 := readByte_lt m a
  have h1 := readByte_lt m (a + 1)
  have h2 := readByte_lt m (a + 2)
  have h3 := readByte_lt m (a + 3)
  unfold readWord
  omega

theorem readWord_byte (m : Mem) (a : Nat) :
    readWord m a % 256 = readByte m a ∧
    readWord m a / 256 % 256 = readByte m (a + 1) ∧
    readWord m a / 65536 % 256 = readByte m (a + 2) ∧
    readWord m a / 16777216 % 256 = readByte m (a + 3) := by
  have h0 := readByte_lt m a
  have h1 := readByte_lt m (a + 1)
  have h2 := readByte_lt m (a + 2)
  have h3 := readByte_lt m (a + 3)
  unfold readWord
  omega

theorem readByte_writeByte (m : Mem) (a b x : Nat) :
    readByte (writeByte m a b) x = if x = a then b % 256 else readByte m x := by
  simp only [readByte, writeByte]
  split <;> omega

theorem readByte_writeBytes_out (m : Mem) (a x : Nat) (bs : List Nat)
    (h : x < a ∨ a + bs.length ≤ x) :
    readByte (writeBytes m a bs) x = readByte m x := by
  induction bs generalizing m a with
  | nil => rfl
  | cons b bs ih =>
    simp only [writeBytes]
    rw [ih _ _ (by simp at h ⊢; omega), readByte_writeByte,
      if_neg (by simp at h; omega)]

theorem readWord_writeBytes_out (m : Mem) (a x : Nat) (bs : List Nat)
    (h : x + 4 ≤ a ∨ a + bs.length ≤ x) :
    readWord (writeBytes m a bs) x = readWord m x := by
  unfold readWord
  rw [readByte_writeBytes_out m a x bs (by omega),
    readByte_writeBytes_out m a (x + 1) bs (by omega),
    readByte_writeBytes_out m a (x + 2) bs (by omega),
    readByte_writeBytes_out m a (x + 3) bs (by omega)]

theorem readBytes_writeBytes (m : Mem) (a : Nat) (bs : List Nat)
    (h : ∀ b ∈ bs, b < 256) :
    readBytes (writeBytes m a bs) a bs.length = bs := by
  induction bs generalizing m a with
  | nil => rfl
  | cons b bs ih =>
    simp only [writeBytes, List.length_cons, readBytes, List.cons.injEq]
    constructor
    · rw [readByte_writeBytes_out _ _ _ _ (by omega), readByte_writeByte,
        if_pos rfl]
      exact Nat.mod_eq_of_lt (h b (by simp))
    · exact ih _ _ (fun x hx => h x (by simp [hx]))

theorem cstring_of_ne_zero (l : List Nat) (h : ∀ b ∈ l, b ≠ 0) :
    cstring l = l := by
  unfold cstring
  induction l with
  | nil => rfl
  | cons b bs ih =>
    rw [List.takeWhile_cons, if_pos (by simpa using h b (by simp))]
    simp only [List.cons.injEq, true_and]
    exact ih (fun x hx => h x (by simp [hx]))

/-! ## Floor division: helper bounds for the negative-divisor case -/

theorem fmod_bounds_of_neg (a b : Int) (hb : b < 0) :
    b < a.fmod b ∧ a.fmod b ≤ 0 := by
  match a, b with
  | _, .ofNat n => exact absurd hb (Int.ofNat_nonneg n).not_lt
  | .ofNat 0, .negSucc n =>
    have h : Int.fmod (.ofNat 0) (.negSucc n) = 0 := rfl
    rw [h, Int.negSucc_eq]
    omega
  | .ofNat (m + 1), .negSucc n =>
    have h : Int.fmod (.ofNat (m + 1)) (.negSucc n) = Int.subNatNat (m % (n + 1)) n := rfl
    have hm : m % (n + 1) < n + 1 := Nat.mod_lt _ (by omega)
    rw [h, Int.subNatNat_eq_coe, Int.negSucc_eq]
    omega
  | .negSucc m, .negSucc n =>
    have h : Int.fmod (.negSucc m) (.negSucc n) = -(Int.ofNat ((m + 1) % (n + 1))) := rfl
    have hm : (m + 1) % (n + 1) < n + 1 := Nat.mod_lt _ (by omega)
    rw [h, Int.negSucc_eq, Int.ofNat_eq_natCast]
    omega

/-! ## C2: integer division -/

/-- C2: `int_div(dividend, divisor)` with a nonzero divisor performs floor
division: dividend = divisor * q + r, the remainder r carries the sign of the
divisor with 0 ≤ r < divisor for a positive divisor, the four sign examples
hold, and a zero divisor fails with TYPE_ERROR. -/
theorem c2_int_div_floor (a b : Int) (hb : b ≠ 0) :
    wikrt_int_div a b = .ok (a.fdiv b, a.fmod b) ∧
    a = b * a.fdiv b + a.fmod b ∧
    (0 < b → 0 ≤ a.fmod b ∧ a.fmod b < b) ∧
    (b < 0 → b < a.fmod b ∧ a.fmod b ≤ 0) ∧
    wikrt_int_div 11 3 = .ok (3, 2) ∧
    wikrt_int_div (-11) 3 = .ok (-4, 1) ∧
    wikrt_int_div 11 (-3) = .ok (-4, -1) ∧
    wikrt_int_div (-11) (-3) = .ok (3, -2) ∧
    wikrt_int_div a 0 = .error Err.TYPE_ERROR := by
  refine ⟨by simp [wikrt_int_div, hb], ?_, ?_, fmod_bounds_of_neg a b,
    rfl, rfl, rfl, rfl, by simp [wikrt_int_div]⟩
  · have h := Int.fmod_add_fdiv a b
    linarith
  · intro hpos
    exact ⟨Int.fmod_nonneg' a hpos, Int.fmod_lt_of_pos a hpos⟩

/-- Witness for C2 at dividend -11 and divisor 3. -/
theorem c2_int_div_floor_witness :
    wikrt_int_div (-11) 3 = .ok ((-11 : Int).fdiv 3, (-11 : Int).fmod 3) ∧
    (-11 : Int) = 3 * (-11 : Int).fdiv 3 + (-11 : Int).fmod 3 :=
  ⟨(c2_int_div_floor (-11) 3 (by norm_num)).1,
   (c2_int_div_floor (-11) 3 (by norm_num)).2.1⟩

/-! ## C5: copy and drop versus substructural flags -/

theorem except_ok_bind {α β : Type} (x : α) (f : α → Except Err β) :
    (Except.ok x >>= f) = f x := rfl

theorem except_error_bind {α β : Type} (e : Err) (f : α → Except Err β) :
    ((Except.error e : Except Err α) >>= f) = Except.error e := rfl

theorem copyV_spec (v : V) : ∀ b : Bool,
    (affChecked b v = true → wikrt_copyV b v = .error Err.TYPE_ERROR) ∧
    (affChecked b v = false → wikrt_copyV b v = .ok v) := by
  induction v with
  | sm n => exact fun b => ⟨fun h => by simp [affChecked] at h, fun _ => rfl⟩
  | base t => exact fun b => ⟨fun h => by simp [affChecked] at h, fun _ => rfl⟩
  | bigint p ds => exact fun b => ⟨fun h => by simp [affChecked] at h, fun _ => rfl⟩
  | pair t a b ha hb =>
    intro bb
    constructor
    · intro h
      simp only [affChecked, Bool.or_eq_true] at h
      rcases h with h | h
      · simp [wikrt_copyV, (ha bb).1 h, except_ok_bind, except_error_bind]
      · by_cases h2 : affChecked bb a = true
        · simp [wikrt_copyV, (ha bb).1 h2, except_ok_bind, except_error_bind]
        · simp [wikrt_copyV, (ha bb).2 (by simpa using h2), (hb bb).1 h, except_ok_bind, except_error_bind]
    · intro h
      simp only [affChecked, Bool.or_eq_false_iff] at h
      simp [wikrt_copyV, (ha bb).2 h.1, (hb bb).2 h.2, except_ok_bind, except_error_bind]
  | deepsum s v ih =>
    intro bb
    constructor
    · intro h
      simp only [affChecked] at h
      simp [wikrt_copyV, (ih bb).1 h, except_ok_bind, except_error_bind]
    · intro h
      simp only [affChecked] at h
      simp [wikrt_copyV, (ih bb).2 h, except_ok_bind, except_error_bind]
  | sealsm t v ih =>
    intro bb
    constructor
    · intro h
      simp only [affChecked] at h
      simp [wikrt_copyV, (ih bb).1 h, except_ok_bind, except_error_bind]
    · intro h
      simp only [affChecked] at h
      simp [wikrt_copyV, (ih bb).2 h, except_ok_bind, except_error_bind]
  | «seal» tok v ih =>
    intro bb
    constructor
    · intro h
      simp only [affChecked] at h
      simp [wikrt_copyV, (ih bb).1 h, except_ok_bind, except_error_bind]
    · intro h
      simp only [affChecked] at h
      simp [wikrt_copyV, (ih bb).2 h, except_ok_bind, except_error_bind]
  | block hdr ops ih =>
    intro bb
    by_cases hflag : (wikrt_block_aff hdr && !bb) = true
    · refine ⟨fun _ => by simp [wikrt_copyV, hflag], fun h => ?_⟩
      simp only [affChecked, hflag, Bool.true_or] at h
      exact absurd h (by simp)
    · constructor
      · intro h
        simp only [affChecked, hflag, Bool.false_or] at h
        simp [wikrt_copyV, hflag, (ih bb).1 h, except_ok_bind, except_error_bind]
      · intro h
        simp only [affChecked, hflag, Bool.false_or] at h
        simp [wikrt_copyV, hflag, (ih bb).2 h, except_ok_bind, except_error_bind]
  | opval hdr v ih =>
    intro bb
    by_cases hflag : (wikrt_opval_lazykf hdr || bb) = true
    · constructor
      · intro h
        simp only [affChecked, hflag, if_true] at h
        simp [wikrt_copyV, hflag, (ih bb).1 h, except_ok_bind, except_error_bind]
      · intro h
        simp only [affChecked, hflag, if_true] at h
        simp [wikrt_copyV, hflag, (ih bb).2 h, except_ok_bind, except_error_bind]
    · constructor
      · intro h
        simp only [affChecked, hflag, if_false] at h
        simp [wikrt_copyV, hflag, (ih true).1 h, except_ok_bind, except_error_bind]
      · intro h
        simp only [affChecked, hflag, if_false] at h
        simp [wikrt_copyV, hflag, (ih true).2 h, except_ok_bind, except_error_bind]

theorem dropV_spec (v : V) : ∀ b : Bool,
    (relChecked b v = true → wikrt_dropV b v = .error Err.TYPE_ERROR) ∧
    (relChecked b v = false → wikrt_dropV b v = .ok ()) := by
  induction v with
  | sm n => exact fun b => ⟨fun h => by simp [relChecked] at h, fun _ => rfl⟩
  | base t => exact fun b => ⟨fun h => by simp [relChecked] at h, fun _ => rfl⟩
  | bigint p ds => exact fun b => ⟨fun h => by simp [relChecked] at h, fun _ => rfl⟩
  | pair t a b ha hb =>
    intro bb
    constructor
    · intro h
      simp only [relChecked, Bool.or_eq_true] at h
      rcases h with h | h
      · simp [wikrt_dropV, (ha bb).1 h, except_ok_bind, except_error_bind]
      · by_cases h2 : relChecked bb a = true
        · simp [wikrt_dropV, (ha bb).1 h2, except_ok_bind, except_error_bind]
        · simp [wikrt_dropV, (ha bb).2 (by simpa using h2), (hb bb).1 h,
            except_ok_bind, except_error_bind]
    · intro h
      simp only [relChecked, Bool.or_eq_false_iff] at h
      simp [wikrt_dropV, (ha bb).2 h.1, (hb bb).2 h.2, except_ok_bind, except_error_bind]
  | deepsum s v ih =>
    exact fun bb => ⟨fun h => by simpa [wikrt_dropV] using (ih bb).1 (by simpa [relChecked] using h),
      fun h => by simpa [wikrt_dropV] using (ih bb).2 (by simpa [relChecked] using h)⟩
  | sealsm t v ih =>
    exact fun bb => ⟨fun h => by simpa [wikrt_dropV] using (ih bb).1 (by simpa [relChecked] using h),
      fun h => by simpa [wikrt_dropV] using (ih bb).2 (by simpa [relChecked] using h)⟩
  | «seal» tok v ih =>
    exact fun bb => ⟨fun h => by simpa [wikrt_dropV] using (ih bb).1 (by simpa [relChecked] using h),
      fun h => by simpa [wikrt_dropV] using (ih bb).2 (by simpa [relChecked] using h)⟩
  | block hdr ops ih =>
    intro bb
    by_cases hflag : (wikrt_block_rel hdr && !bb) = true
    · refine ⟨fun _ => by simp [wikrt_dropV, hflag], fun h => ?_⟩
      simp only [relChecked, hflag, Bool.true_or] at h
      exact absurd h (by simp)
    · constructor
      · intro h
        simp only [relChecked, hflag, Bool.false_or] at h
        simp [wikrt_dropV, hflag, (ih bb).1 h]
      · intro h
        simp only [relChecked, hflag, Bool.false_or] at h
        simp [wikrt_dropV, hflag, (ih bb).2 h]
  | opval hdr v ih =>
    intro bb
    by_cases hflag : (wikrt_opval_lazykf hdr || bb) = true
    · constructor
      · intro h
        simp only [relChecked, hflag, if_true] at h
        simp [wikrt_dropV, hflag, (ih bb).1 h]
      · intro h
        simp only [relChecked, hflag, if_true] at h
        simp [wikrt_dropV, hflag, (ih bb).2 h]
    · constructor
      · intro h
        simp only [relChecked, hflag, if_false] at h
        simp [wikrt_dropV, hflag, (ih true).1 h]
      · intro h
        simp only [relChecked, hflag, if_false] at h
        simp [wikrt_dropV, hflag, (ih true).2 h]

theorem affChecked_true (v : V) : affChecked true v = false := by
  induction v with
  | sm n => rfl
  | base t => rfl
  | bigint p ds => rfl
  | pair t a b ha hb => simp [affChecked, ha, hb]
  | deepsum s v ih => simpa [affChecked] using ih
  | sealsm t v ih => simpa [affChecked] using ih
  | «seal» tok v ih => simpa [affChecked] using ih
  | block hdr ops ih => simpa [affChecked] using ih
  | opval hdr v ih => simpa [affChecked] using ih

theorem relChecked_true (v : V) : relChecked true v = false := by
  induction v with
  | sm n => rfl
  | base t => rfl
  | bigint p ds => rfl
  | pair t a b ha hb => simp [relChecked, ha, hb]
  | deepsum s v ih => simpa [relChecked] using ih
  | sealsm t v ih => simpa [relChecked] using ih
  | «seal» tok v ih => simpa [relChecked] using ih
  | block hdr ops ih => simpa [relChecked] using ih
  | opval hdr v ih => simpa [relChecked] using ih

/-- C5 (amended): copy with bCopyAff false fails with TYPE_ERROR exactly when
the walked value contains an affine block outside of already-checked quoted
values (an opval without the lazy bit suppresses the affine check for its
content), and otherwise returns the copied value; drop with bDropRel false
likewise with relevant blocks; with the permission flags set both always
succeed. -/
theorem c5_copy_drop_substructural (v : V) :
    (wikrt_copyV false v = .error Err.TYPE_ERROR ↔ affChecked false v = true) ∧
    (affChecked false v = false → wikrt_copyV false v = .ok v) ∧
    (wikrt_dropV false v = .error Err.TYPE_ERROR ↔ relChecked false v = true) ∧
    (relChecked false v = false → wikrt_dropV false v = .ok ()) ∧
    wikrt_copyV true v = .ok v ∧ wikrt_dropV true v = .ok () := by
  obtain ⟨hc1, hc2⟩ := copyV_spec v false
  obtain ⟨hd1, hd2⟩ := dropV_spec v false
  refine ⟨⟨fun h => ?_, hc1⟩, hc2, ⟨fun h => ?_, hd1⟩, hd2,
    (copyV_spec v true).2 (affChecked_true v), (dropV_spec v true).2 (relChecked_true v)⟩
  · by_contra hne
    rw [hc2 (by simpa using hne)] at h
    exact Except.noConfusion h
  · by_contra hne
    rw [hd2 (by simpa using hne)] at h
    exact Except.noConfusion h

/-- Counterexample to C5 as stated: this value contains a block whose affine
flag is set, yet copy with bCopyAff false succeeds, because the enclosing
opval has a clear lazy bit and so suppresses the affine check. -/
theorem c5_copy_affine_counterexample :
    containsAffineBlock (V.opval 0 (V.block 512 (V.base 7))) = true ∧
    wikrt_copyV false (V.opval 0 (V.block 512 (V.base 7))) =
      .ok (V.opval 0 (V.block 512 (V.base 7))) := by
  exact ⟨by decide, rfl⟩

/-- Witness for C5: a checked affine block fails to copy, a plain block
copies, and a checked relevant block fails to drop. -/
theorem c5_copy_drop_substructural_witness :
    wikrt_copyV false (V.block 512 (V.base 7)) = .error Err.TYPE_ERROR ∧
    wikrt_copyV false (V.block 0 (V.base 7)) = .ok (V.block 0 (V.base 7)) ∧
    wikrt_dropV false (V.block 256 (V.base 7)) = .error Err.TYPE_ERROR :=
  ⟨(c5_copy_drop_substructural (V.block 512 (V.base 7))).1.mpr (by decide),
   (c5_copy_drop_substructural (V.block 0 (V.base 7))).2.1 (by decide),
   (c5_copy_drop_substructural (V.block 256 (V.base 7))).2.2.1.mpr (by decide)⟩

/-! ## C8: fourteen nested sums in the left -/

/-- C8: wrapping unit in fourteen L layers allocates exactly two deep-sum
cells (the first layer re-tags the unit pointer, twelve directions pack into
the first cell tag, the rest chains one more cell), and fourteen unwraps all
return L with status OK, ending at unit. -/
theorem c8_deepsum_fourteen :
    (wrapLN 14 (WIKRT_UNIT, initCx)).2.bytesAlloc = 2 * WIKRT_CELLSIZE ∧
    (unwrapN 14 (wrapLN 14 (WIKRT_UNIT, initCx))).1 =
      List.replicate 14 (Err.OK, false) ∧
    (unwrapN 14 (wrapLN 14 (WIKRT_UNIT, initCx))).2.1 = WIKRT_UNIT := by
  refine ⟨by decide, by decide, by decide⟩

/-! ## C3: wrap and unwrap of sums -/

theorem alloc_sum_P (cx : Cx) (t : Bool) (v : Nat) (h : wikrt_vtag v = WIKRT_P) :
    wikrt_alloc_sum cx t v =
      (Err.OK, wikrt_tag_addr (if t then WIKRT_PR else WIKRT_PL) (wikrt_vaddr v), cx) := by
  simp only [wikrt_alloc_sum, h]
  simp

theorem alloc_sum_deepsum (cx : Cx) (t : Bool) (v : Nat)
    (h1 : wikrt_vtag v = WIKRT_O)
    (h2 : readWord cx.mem (wikrt_vaddr v) % 256 = WIKRT_OTAG_DEEPSUM)
    (h3 : readWord cx.mem (wikrt_vaddr v) < 2 ^ 30) :
    wikrt_alloc_sum cx t v =
      (Err.OK, v, setWord cx (wikrt_vaddr v)
        ((readWord cx.mem (wikrt_vaddr v) / 256 * 4 + (if t then WIKRT_DEEPSUMR else WIKRT_DEEPSUML)) * 256
          + WIKRT_OTAG_DEEPSUM)) := by
  have hne : wikrt_vtag v ≠ WIKRT_P := by rw [h1]; decide
  simp only [wikrt_alloc_sum, if_neg hne, if_pos (⟨h1, h2, h3⟩ :
    wikrt_vtag v = WIKRT_O ∧
    readWord cx.mem (wikrt_vaddr v) % 256 = WIKRT_OTAG_DEEPSUM ∧
    readWord cx.mem (wikrt_vaddr v) < 2 ^ 30)]

theorem alloc_sum_fresh (cx : Cx) (t : Bool) (v : Nat)
    (h1 : wikrt_vtag v ≠ WIKRT_P)
    (h2 : ¬(wikrt_vtag v = WIKRT_O ∧
      readWord cx.mem (wikrt_vaddr v) % 256 = WIKRT_OTAG_DEEPSUM ∧
      readWord cx.mem (wikrt_vaddr v) < 2 ^ 30)) :
    wikrt_alloc_sum cx t v =
      (Err.OK, wikrt_tag_addr WIKRT_O cx.next,
        setWord (setWord { cx with next := cx.next + 8, bytesAlloc := cx.bytesAlloc + 8 }
          cx.next ((if t then WIKRT_DEEPSUMR else WIKRT_DEEPSUML) * 256 + WIKRT_OTAG_DEEPSUM))
          (cx.next + 4) v) := by
  simp only [wikrt_alloc_sum, if_neg h1, if_neg h2, wikrt_alloc_cellval, wikrt_alloc]
  rfl

theorem split_sum_PL (cx : Cx) (c : Nat) (h : wikrt_vtag c = WIKRT_PL) :
    wikrt_split_sum cx c = (Err.OK, false, wikrt_tag_addr WIKRT_P (wikrt_vaddr c), cx) := by
  simp only [wikrt_split_sum, h]
  simp

theorem split_sum_PR (cx : Cx) (c : Nat) (h : wikrt_vtag c = WIKRT_PR) :
    wikrt_split_sum cx c = (Err.OK, true, wikrt_tag_addr WIKRT_P (wikrt_vaddr c), cx) := by
  simp only [wikrt_split_sum, h]
  simp

theorem split_sum_deepsum_pop (cx : Cx) (c : Nat)
    (h1 : wikrt_vtag c = WIKRT_O)
    (h2 : readWord cx.mem (wikrt_vaddr c) % 256 = WIKRT_OTAG_DEEPSUM)
    (h3 : readWord cx.mem (wikrt_vaddr c) / 256 / 4 = 0) :
    wikrt_split_sum cx c =
      (Err.OK, decide (readWord cx.mem (wikrt_vaddr c) / 256 % 4 = 3),
        readWord cx.mem (wikrt_vaddr c + 4), wikrt_free cx WIKRT_CELLSIZE (wikrt_vaddr c)) := by
  have hne5 : wikrt_vtag c ≠ WIKRT_PL := by rw [h1]; decide
  have hne7 : wikrt_vtag c ≠ WIKRT_PR := by rw [h1]; decide
  simp only [wikrt_split_sum, if_neg hne5, if_neg hne7, if_pos h1, if_pos h2, if_pos h3]

theorem split_sum_deepsum_keep (cx : Cx) (c : Nat)
    (h1 : wikrt_vtag c = WIKRT_O)
    (h2 : readWord cx.mem (wikrt_vaddr c) % 256 = WIKRT_OTAG_DEEPSUM)
    (h3 : readWord cx.mem (wikrt_vaddr c) / 256 / 4 ≠ 0) :
    wikrt_split_sum cx c =
      (Err.OK, decide (readWord cx.mem (wikrt_vaddr c) / 256 % 4 = 3), c,
        setWord cx (wikrt_vaddr c)
          (readWord cx.mem (wikrt_vaddr c) / 256 / 4 * 256 + WIKRT_OTAG_DEEPSUM)) := by
  have hne5 : wikrt_vtag c ≠ WIKRT_PL := by rw [h1]; decide
  have hne7 : wikrt_vtag c ≠ WIKRT_PR := by rw [h1]; decide
  simp only [wikrt_split_sum, if_neg hne5, if_neg hne7, if_pos h1, if_pos h2, if_neg h3]

theorem split_sum_nonsum (cx : Cx) (c : Nat)
    (h5 : wikrt_vtag c ≠ WIKRT_PL) (h7 : wikrt_vtag c ≠ WIKRT_PR)
    (ho : wikrt_vtag c = WIKRT_O →
      readWord cx.mem (wikrt_vaddr c) % 256 ≠ WIKRT_OTAG_DEEPSUM ∧
      readWord cx.mem (wikrt_vaddr c) % 256 ≠ WIKRT_OTAG_ARRAY) :
    wikrt_split_sum cx c = (Err.TYPE_ERROR, false, WIKRT_VOID, cx) := by
  by_cases h1 : wikrt_vtag c = WIKRT_O
  · obtain ⟨hd, ha⟩ := ho h1
    simp only [wikrt_split_sum, if_neg h5, if_neg h7, if_pos h1, if_neg hd, if_neg ha]
  · simp only [wikrt_split_sum, if_neg h5, if_neg h7, if_neg h1]

theorem setWord_mem (cx : Cx) (a w : Nat) :
    (setWord cx a w).mem = writeWord cx.mem a w := rfl

theorem free_mem (cx : Cx) (sz ad : Nat) : (wikrt_free cx sz ad).mem = cx.mem := rfl

theorem readByte_writeWord_readWord (m : Mem) (a0 x : Nat) :
    readByte (writeWord m a0 (readWord m a0)) x = readByte m x := by
  obtain ⟨q0, q1, q2, q3⟩ := readWord_byte m a0
  rw [readByte_writeWord]
  by_cases h0 : x = a0
  · rw [if_pos h0, h0]; exact q0
  rw [if_neg h0]
  by_cases h1 : x = a0 + 1
  · rw [if_pos h1, h1]; exact q1
  rw [if_neg h1]
  by_cases h2 : x = a0 + 2
  · rw [if_pos h2, h2]; exact q2
  rw [if_neg h2]
  by_cases h3 : x = a0 + 3
  · rw [if_pos h3, h3]; exact q3
  rw [if_neg h3]

theorem readByte_writeWord_writeWord (m : Mem) (a X Y x : Nat) :
    readByte (writeWord (writeWord m a X) a Y) x = readByte (writeWord m a Y) x := by
  rw [readByte_writeWord (writeWord m a X) a Y x, readByte_writeWord m a Y x]
  by_cases h0 : x = a
  · rw [if_pos h0, if_pos h0]
  rw [if_neg h0, if_neg h0]
  by_cases h1 : x = a + 1
  · rw [if_pos h1, if_pos h1]
  rw [if_neg h1, if_neg h1]
  by_cases h2 : x = a + 2
  · rw [if_pos h2, if_pos h2]
  rw [if_neg h2, if_neg h2]
  by_cases h3 : x = a + 3
  · rw [if_pos h3, if_pos h3]
  rw [if_neg h3, if_neg h3]
  exact readByte_writeWord_out m a X x (by omega)

/-- C3 (amended): for every direction and value, wrap_sum then unwrap_sum
succeeds and returns the direction and the value unchanged, restoring all
previously allocated memory; unwrap_sum fails with TYPE_ERROR on every value
that is not PL or PR tagged, not a deep-sum object, and not an array object
(the unimplemented array path fails with IMPL instead, see the
counterexample). The deep-sum hypothesis excludes malformed headers with an
empty direction field, which the runtime never creates. -/
theorem c3_wrap_unwrap_sum (cx : Cx) (t : Bool) (v : Nat)
    (hWF : cx.WF) (hv : v < 2 ^ 32)
    (hds : wikrt_vtag v = WIKRT_O →
      readWord cx.mem (wikrt_vaddr v) % 256 = WIKRT_OTAG_DEEPSUM →
      readWord cx.mem (wikrt_vaddr v) / 256 ≠ 0) :
    (wikrt_alloc_sum cx t v).1 = Err.OK ∧
    (wikrt_split_sum (wikrt_alloc_sum cx t v).2.2 (wikrt_alloc_sum cx t v).2.1).1 = Err.OK ∧
    (wikrt_split_sum (wikrt_alloc_sum cx t v).2.2 (wikrt_alloc_sum cx t v).2.1).2.1 = t ∧
    (wikrt_split_sum (wikrt_alloc_sum cx t v).2.2 (wikrt_alloc_sum cx t v).2.1).2.2.1 = v ∧
    (∀ a, a < cx.next →
      readByte (wikrt_split_sum (wikrt_alloc_sum cx t v).2.2
        (wikrt_alloc_sum cx t v).2.1).2.2.2.mem a = readByte cx.mem a) ∧
    (∀ c, wikrt_vtag c ≠ WIKRT_PL → wikrt_vtag c ≠ WIKRT_PR →
      (wikrt_vtag c = WIKRT_O →
        readWord cx.mem (wikrt_vaddr c) % 256 ≠ WIKRT_OTAG_DEEPSUM ∧
        readWord cx.mem (wikrt_vaddr c) % 256 ≠ WIKRT_OTAG_ARRAY) →
      (wikrt_split_sum cx c).1 = Err.TYPE_ERROR) := by
  obtain ⟨hnpos, hnmod⟩ := hWF
  have hlast : ∀ c, wikrt_vtag c ≠ WIKRT_PL → wikrt_vtag c ≠ WIKRT_PR →
      (wikrt_vtag c = WIKRT_O →
        readWord cx.mem (wikrt_vaddr c) % 256 ≠ WIKRT_OTAG_DEEPSUM ∧
        readWord cx.mem (wikrt_vaddr c) % 256 ≠ WIKRT_OTAG_ARRAY) →
      (wikrt_split_sum cx c).1 = Err.TYPE_ERROR := by
    intro c h5 h7 ho
    rw [split_sum_nonsum cx c h5 h7 ho]
  by_cases hP : wikrt_vtag v = WIKRT_P
  · -- product case: pointer re-tagged, no allocation
    have hv3 : v % 8 = 3 := hP
    have hva0 : wikrt_vaddr v % 8 = 0 := by
      simp only [wikrt_vaddr]; omega
    rw [alloc_sum_P cx t v hP]
    cases t
    · simp only [Bool.false_eq_true, if_false]
      have htag : wikrt_vtag (wikrt_tag_addr WIKRT_PL (wikrt_vaddr v)) = WIKRT_PL := by
        simp only [wikrt_vtag, wikrt_tag_addr, WIKRT_PL]; omega
      rw [split_sum_PL cx _ htag]
      refine ⟨by trivial, by trivial, by trivial, ?_, fun a _ => rfl, hlast⟩
      simp only [wikrt_tag_addr, wikrt_vaddr, wikrt_vtag, WIKRT_PL, WIKRT_P] at *
      omega
    · simp only [if_true]
      have htag : wikrt_vtag (wikrt_tag_addr WIKRT_PR (wikrt_vaddr v)) = WIKRT_PR := by
        simp only [wikrt_vtag, wikrt_tag_addr, WIKRT_PR]; omega
      rw [split_sum_PR cx _ htag]
      refine ⟨by trivial, by trivial, by trivial, ?_, fun a _ => rfl, hlast⟩
      simp only [wikrt_tag_addr, wikrt_vaddr, wikrt_vtag, WIKRT_PR, WIKRT_P] at *
      omega
  · by_cases hD : wikrt_vtag v = WIKRT_O ∧
        readWord cx.mem (wikrt_vaddr v) % 256 = WIKRT_OTAG_DEEPSUM ∧
        readWord cx.mem (wikrt_vaddr v) < 2 ^ 30
    · -- deep sum with room: tag updated in place, then restored
      obtain ⟨h1, h2, h3⟩ := hD
      have hs0 : readWord cx.mem (wikrt_vaddr v) / 256 ≠ 0 := hds h1 h2
      rw [alloc_sum_deepsum cx t v h1 h2 h3]
      have h2n : readWord cx.mem (wikrt_vaddr v) % 256 = 83 := h2
      have h3n : readWord cx.mem (wikrt_vaddr v) < 1073741824 := h3
      cases t <;>
        simp only [Bool.false_eq_true, if_false, if_true, WIKRT_DEEPSUMR, WIKRT_DEEPSUML,
          WIKRT_OTAG_DEEPSUM, setWord_mem] <;>
        [skip; skip] <;>
        (first
          | ( -- shared script for both directions
             rw [split_sum_deepsum_keep _ v h1
                  (by rw [setWord_mem, readWord_writeWord_self _ _ _ (by omega)]; omega)
                  (by rw [setWord_mem, readWord_writeWord_self _ _ _ (by omega)]; omega)]
             refine ⟨by trivial, by trivial, ?_, by trivial, ?_, hlast⟩
             · rw [setWord_mem, readWord_writeWord_self _ _ _ (by omega)]
               simp only [decide_eq_true_eq, decide_eq_false_iff_not]
               omega
             · intro a _
               rw [setWord_mem, setWord_mem, readWord_writeWord_self _ _ _ (by omega)]
               have hres : (readWord cx.mem (wikrt_vaddr v) / 256 * 4 + 2) * 256 + 83 = 83 + (readWord cx.mem (wikrt_vaddr v) / 256 * 4 + 2) * 256 := by omega
               have hres3 : (readWord cx.mem (wikrt_vaddr v) / 256 * 4 + 3) * 256 + 83 = 83 + (readWord cx.mem (wikrt_vaddr v) / 256 * 4 + 3) * 256 := by omega
               have hback : ((readWord cx.mem (wikrt_vaddr v) / 256 * 4 + 2) * 256 + 83) / 256 / 4 * 256 + 83 = readWord cx.mem (wikrt_vaddr v) := by omega
               have hback3 : ((readWord cx.mem (wikrt_vaddr v) / 256 * 4 + 3) * 256 + 83) / 256 / 4 * 256 + 83 = readWord cx.mem (wikrt_vaddr v) := by omega
               first
                 | rw [hback, readByte_writeWord_writeWord, readByte_writeWord_readWord]
                 | rw [hback3, readByte_writeWord_writeWord, readByte_writeWord_readWord]))
    · -- fresh deep-sum cell, then popped and freed
      rw [alloc_sum_fresh cx t v hP hD]
      set n := cx.next with hn
      set dir : Nat := if t then WIKRT_DEEPSUMR else WIKRT_DEEPSUML with hdir
      have hdirlt : dir ≤ 3 ∧ 2 ≤ dir := by
        cases t <;> simp [hdir, WIKRT_DEEPSUMR, WIKRT_DEEPSUML]
      set dtag := dir * 256 + WIKRT_OTAG_DEEPSUM with hdtag
      have hdtagn : dtag = dir * 256 + 83 := hdtag
      set cxB := { cx with next := cx.next + 8, bytesAlloc := cx.bytesAlloc + 8 } with hcxB
      set cxf := setWord (setWord cxB n dtag) (n + 4) v with hcxf
      have htagO : wikrt_vtag (wikrt_tag_addr WIKRT_O n) = WIKRT_O := by
        simp only [wikrt_vtag, wikrt_tag_addr, WIKRT_O]; omega
      have haddr : wikrt_vaddr (wikrt_tag_addr WIKRT_O n) = n := by
        simp only [wikrt_vaddr, wikrt_tag_addr, WIKRT_O]; omega
      have hrd : readWord cxf.mem n = dtag := by
        rw [hcxf, setWord_mem, setWord_mem]
        rw [readWord_writeWord_out _ _ _ _ (by omega)]
        exact readWord_writeWord_self _ _ _ (by omega)
      have hrd4 : readWord cxf.mem (n + 4) = v := by
        rw [hcxf, setWord_mem]
        exact readWord_writeWord_self _ _ _ hv
      have hmod : dtag % 256 = WIKRT_OTAG_DEEPSUM := by
        simp only [WIKRT_OTAG_DEEPSUM]; omega
      have hpop : dtag / 256 / 4 = 0 := by omega
      rw [split_sum_deepsum_pop cxf _ htagO (by rw [haddr, hrd]; exact hmod)
        (by rw [haddr, hrd]; exact hpop)]
      refine ⟨rfl, rfl, ?_, by rw [haddr, hrd4], ?_, hlast⟩
      · rw [haddr, hrd]
        have hd4 : dtag / 256 % 4 = dir := by omega
        rw [hd4]
        cases t <;> simp [hdir, WIKRT_DEEPSUMR, WIKRT_DEEPSUML]
      · intro a ha
        rw [free_mem, hcxf, setWord_mem, setWord_mem]
        rw [readByte_writeWord_out _ _ _ _ (by omega), readByte_writeWord_out _ _ _ _ (by omega)]

/-- Counterexample to C3 as stated: unwrap_sum applied to a value that is not
a sum (an object whose tag byte is WIKRT_OTAG_ARRAY, not PL or PR tagged and
not a deep-sum) fails with IMPL, not TYPE_ERROR. -/
theorem c3_split_sum_array_impl :
    (wikrt_split_sum (setWord { initCx with next := 16 } 8 WIKRT_OTAG_ARRAY) 9).1 = Err.IMPL ∧
    Err.IMPL ≠ Err.TYPE_ERROR := by
  refine ⟨by decide, by decide⟩

/-- Witness for C3: wrapping the unit value in the right then unwrapping
returns direction R and unit, in a fresh context. -/
theorem c3_wrap_unwrap_sum_witness :
    (wikrt_alloc_sum initCx true WIKRT_UNIT).1 = Err.OK ∧
    (wikrt_split_sum (wikrt_alloc_sum initCx true WIKRT_UNIT).2.2
      (wikrt_alloc_sum initCx true WIKRT_UNIT).2.1).1 = Err.OK ∧
    (wikrt_split_sum (wikrt_alloc_sum initCx true WIKRT_UNIT).2.2
      (wikrt_alloc_sum initCx true WIKRT_UNIT).2.1).2.1 = true ∧
    (wikrt_split_sum (wikrt_alloc_sum initCx true WIKRT_UNIT).2.2
      (wikrt_alloc_sum initCx true WIKRT_UNIT).2.1).2.2.1 = WIKRT_UNIT := by
  obtain ⟨w1, w2, w3, w4, _, _⟩ := c3_wrap_unwrap_sum initCx true WIKRT_UNIT
    (by constructor <;> decide) (by decide) (by intro h; exact absurd h (by decide))
  exact ⟨w1, w2, w3, w4⟩

/-! ## C4: seal and unseal -/

theorem cstring_cons_ne (b : Nat) (l : List Nat) (h : b ≠ 0) :
    cstring (b :: l) = b :: cstring l := by
  simp [cstring, List.takeWhile_cons, h]

theorem cstring_cons_zero (l : List Nat) : cstring (0 :: l) = [] := by
  simp [cstring, List.takeWhile_cons]

theorem split_seal_sm_eval (cx : Cx) (sv : Nat)
    (h1 : wikrt_vtag sv = WIKRT_O) (h0 : wikrt_vaddr sv ≠ 0)
    (h58 : readWord cx.mem (wikrt_vaddr sv) % 256 = WIKRT_OTAG_SEAL_SM) :
    wikrt_split_seal cx sv =
      (Err.OK, cstring [58, readWord cx.mem (wikrt_vaddr sv) / 256 % 256,
        readWord cx.mem (wikrt_vaddr sv) / 65536 % 256,
        readWord cx.mem (wikrt_vaddr sv) / 16777216 % 256],
        readWord cx.mem (wikrt_vaddr sv + 4),
        wikrt_free cx WIKRT_CELLSIZE (wikrt_vaddr sv)) := by
  have hcond : ¬(wikrt_vtag sv ≠ WIKRT_O ∨ wikrt_vaddr sv = 0) := by
    push_neg
    exact ⟨h1, h0⟩
  simp only [wikrt_split_seal, if_neg hcond, if_pos h58]

theorem split_seal_lg_eval (cx : Cx) (sv : Nat)
    (h1 : wikrt_vtag sv = WIKRT_O) (h0 : wikrt_vaddr sv ≠ 0)
    (h36 : readWord cx.mem (wikrt_vaddr sv) % 256 = WIKRT_OTAG_SEAL) :
    wikrt_split_seal cx sv =
      (Err.OK, cstring (readBytes cx.mem (wikrt_vaddr sv + 8)
        (readWord cx.mem (wikrt_vaddr sv) / 256 % 64)),
        readWord cx.mem (wikrt_vaddr sv + 4),
        wikrt_free cx (WIKRT_CELLSIZE + readWord cx.mem (wikrt_vaddr sv) / 256 % 64)
          (wikrt_vaddr sv)) := by
  have hcond : ¬(wikrt_vtag sv ≠ WIKRT_O ∨ wikrt_vaddr sv = 0) := by
    push_neg
    exact ⟨h1, h0⟩
  have hne : readWord cx.mem (wikrt_vaddr sv) % 256 ≠ WIKRT_OTAG_SEAL_SM := by
    rw [h36]; decide
  simp only [wikrt_split_seal, if_neg hcond, if_neg hne, if_pos h36]

theorem alloc_seal_sm_eval (cx : Cx) (s : List Nat) (v : Nat)
    (hlen : 0 < s.length ∧ s.length < 64) (hsm : s.headD 0 = 58 ∧ s.length ≤ 4) :
    wikrt_alloc_seal cx s v =
      (Err.OK, wikrt_tag_addr WIKRT_O cx.next,
        setWord (setWord { cx with next := cx.next + 8, bytesAlloc := cx.bytesAlloc + 8 }
          cx.next (16777216 * (if 128 ≤ (if s.length > 1 then s.getD 1 0 else 0) ∨
              128 ≤ (if s.length > 2 then s.getD 2 0 else 0) then 255
              else (if s.length > 3 then s.getD 3 0 else 0)) +
            65536 * (if 128 ≤ (if s.length > 1 then s.getD 1 0 else 0) then 255
              else (if s.length > 2 then s.getD 2 0 else 0)) +
            256 * (if s.length > 1 then s.getD 1 0 else 0) + WIKRT_OTAG_SEAL_SM))
          (cx.next + 4) v) := by
  simp only [wikrt_alloc_seal, if_neg (not_not_intro hlen), if_pos hsm,
    wikrt_alloc_cellval, wikrt_alloc]
  rfl

theorem alloc_seal_lg_eval (cx : Cx) (s : List Nat) (v : Nat)
    (hlen : 0 < s.length ∧ s.length < 64) (hns : ¬(s.headD 0 = 58 ∧ s.length ≤ 4)) :
    wikrt_alloc_seal cx s v =
      (Err.OK, wikrt_tag_addr WIKRT_O cx.next,
        { mem := writeBytes (writeWord (writeWord cx.mem cx.next
            (s.length * 256 + WIKRT_OTAG_SEAL)) (cx.next + 4) v) (cx.next + 8) s,
          next := cx.next + cellbuff (8 + s.length),
          bytesAlloc := cx.bytesAlloc + cellbuff (8 + s.length),
          bytesFreed := cx.bytesFreed }) := by
  simp only [wikrt_alloc_seal, if_neg (not_not_intro hlen), if_neg hns,
    wikrt_alloc, setWord, setWord_mem]

/-- C4: sealing a value with a token of 1..63 bytes and then unsealing
returns exactly the token and the value, leaving previously allocated memory
unchanged, PROVIDED the token does not take the packed small-seal path with a
byte at or above 0x80: tokens on the general path (no colon prefix or longer
than four bytes) round-trip with any bytes, and packed tokens round-trip when
their bytes are ASCII. When the token begins with a colon and has at most
four bytes the seal allocates exactly one cell, the token living in the tag
word. Token bytes are nonzero, as UTF-8 bytes of valid token codepoints are.
The ASCII proviso is forced by the source: the small-seal packing
sign-extends plain-char bytes at or above 0x80 over the higher tag bytes
(see c4_seal_high_byte_corrupts), which the spec's unconditional round-trip
sentence does not allow for. -/
theorem c4_seal_roundtrip (cx : Cx) (s : List Nat) (v : Nat)
    (hWF : cx.WF) (hv : v < 2 ^ 32)
    (hlen : 0 < s.length ∧ s.length < 64)
    (hbytes : ∀ b ∈ s, 0 < b ∧ b < 256)
    (hascii : s.headD 0 = 58 ∧ s.length ≤ 4 → ∀ b ∈ s, b < 128) :
    (wikrt_alloc_seal cx s v).1 = Err.OK ∧
    (wikrt_split_seal (wikrt_alloc_seal cx s v).2.2 (wikrt_alloc_seal cx s v).2.1).1 = Err.OK ∧
    (wikrt_split_seal (wikrt_alloc_seal cx s v).2.2 (wikrt_alloc_seal cx s v).2.1).2.1 = s ∧
    (wikrt_split_seal (wikrt_alloc_seal cx s v).2.2 (wikrt_alloc_seal cx s v).2.1).2.2.1 = v ∧
    (∀ a, a < cx.next →
      readByte (wikrt_split_seal (wikrt_alloc_seal cx s v).2.2
        (wikrt_alloc_seal cx s v).2.1).2.2.2.mem a = readByte cx.mem a) ∧
    (s.headD 0 = 58 ∧ s.length ≤ 4 →
      (wikrt_alloc_seal cx s v).2.2.bytesAlloc = cx.bytesAlloc + WIKRT_CELLSIZE) := by
  obtain ⟨hnpos, hnmod⟩ := hWF
  have htagO : wikrt_vtag (wikrt_tag_addr WIKRT_O cx.next) = WIKRT_O := by
    simp only [wikrt_vtag, wikrt_tag_addr, WIKRT_O]; omega
  have haddr : wikrt_vaddr (wikrt_tag_addr WIKRT_O cx.next) = cx.next := by
    simp only [wikrt_vaddr, wikrt_tag_addr, WIKRT_O]; omega
  by_cases hsm : s.headD 0 = 58 ∧ s.length ≤ 4
  · -- small sealer: token packed into the tag word, one cell
    rw [alloc_seal_sm_eval cx s v hlen hsm]
    set t3 := (if s.length > 3 then s.getD 3 0 else 0) with ht3
    set t2 := (if s.length > 2 then s.getD 2 0 else 0) with ht2
    set t1 := (if s.length > 1 then s.getD 1 0 else 0) with ht1
    have hti : t1 < 256 ∧ t2 < 256 ∧ t3 < 256 := by
      refine ⟨?_, ?_, ?_⟩ <;>
        (first
          | (rw [ht1]; split
             · exact (hbytes _ (by rw [List.getD_eq_getElem _ _ (by omega)]; exact List.getElem_mem _)).2
             · omega)
          | (rw [ht2]; split
             · exact (hbytes _ (by rw [List.getD_eq_getElem _ _ (by omega)]; exact List.getElem_mem _)).2
             · omega)
          | (rw [ht3]; split
             · exact (hbytes _ (by rw [List.getD_eq_getElem _ _ (by omega)]; exact List.getElem_mem _)).2
             · omega))
    obtain ⟨h1lt, h2lt, h3lt⟩ := hti
    have ha := hascii hsm
    have h1sm : t1 < 128 := by
      rw [ht1]
      split
      · exact ha _ (by rw [List.getD_eq_getElem _ _ (by omega)]; exact List.getElem_mem _)
      · omega
    have h2sm : t2 < 128 := by
      rw [ht2]
      split
      · exact ha _ (by rw [List.getD_eq_getElem _ _ (by omega)]; exact List.getElem_mem _)
      · omega
    rw [if_neg (by omega : ¬ (128 ≤ t1 ∨ 128 ≤ t2)), if_neg (by omega : ¬ 128 ≤ t1)]
    have htaglt : 16777216 * t3 + 65536 * t2 + 256 * t1 + WIKRT_OTAG_SEAL_SM < 4294967296 := by
      simp only [WIKRT_OTAG_SEAL_SM]; omega
    have hrd : readWord (setWord (setWord
        { cx with next := cx.next + 8, bytesAlloc := cx.bytesAlloc + 8 }
        cx.next (16777216 * t3 + 65536 * t2 + 256 * t1 + WIKRT_OTAG_SEAL_SM))
        (cx.next + 4) v).mem cx.next =
        16777216 * t3 + 65536 * t2 + 256 * t1 + WIKRT_OTAG_SEAL_SM := by
      rw [setWord_mem, setWord_mem, readWord_writeWord_out _ _ _ _ (by omega),
        readWord_writeWord_self _ _ _ htaglt]
    have hrd4 : readWord (setWord (setWord
        { cx with next := cx.next + 8, bytesAlloc := cx.bytesAlloc + 8 }
        cx.next (16777216 * t3 + 65536 * t2 + 256 * t1 + WIKRT_OTAG_SEAL_SM))
        (cx.next + 4) v).mem (cx.next + 4) = v := by
      rw [setWord_mem, readWord_writeWord_self _ _ _ hv]
    have h58 : (16777216 * t3 + 65536 * t2 + 256 * t1 + WIKRT_OTAG_SEAL_SM) % 256 =
        WIKRT_OTAG_SEAL_SM := by
      simp only [WIKRT_OTAG_SEAL_SM]; omega
    rw [split_seal_sm_eval _ _ htagO (by rw [haddr]; omega) (by rw [haddr, hrd]; exact h58)]
    rw [haddr, hrd, hrd4]
    have e1 : (16777216 * t3 + 65536 * t2 + 256 * t1 + WIKRT_OTAG_SEAL_SM) / 256 % 256 = t1 := by
      simp only [WIKRT_OTAG_SEAL_SM]; omega
    have e2 : (16777216 * t3 + 65536 * t2 + 256 * t1 + WIKRT_OTAG_SEAL_SM) / 65536 % 256 = t2 := by
      simp only [WIKRT_OTAG_SEAL_SM]; omega
    have e3 : (16777216 * t3 + 65536 * t2 + 256 * t1 + WIKRT_OTAG_SEAL_SM) / 16777216 % 256 = t3 := by
      simp only [WIKRT_OTAG_SEAL_SM]; omega
    rw [e1, e2, e3]
    refine ⟨rfl, rfl, ?_, rfl, ?_, fun _ => rfl⟩
    · -- the NUL-terminated buffer spells the token again
      match s, hsm, hlen, hbytes with
      | [b0], hsm, hlen, hbytes =>
        have hb0 : b0 = 58 := hsm.1
        subst hb0
        rw [ht1, ht2, ht3]
        norm_num [List.getD, cstring, List.takeWhile_cons]
      | [b0, b1], hsm, hlen, hbytes =>
        have hb0 : b0 = 58 := hsm.1
        subst hb0
        have hb1 : b1 ≠ 0 := by have := (hbytes b1 (by simp)).1; omega
        rw [ht1, ht2, ht3]
        norm_num [List.getD, cstring, List.takeWhile_cons, hb1]
      | [b0, b1, b2], hsm, hlen, hbytes =>
        have hb0 : b0 = 58 := hsm.1
        subst hb0
        have hb1 : b1 ≠ 0 := by have := (hbytes b1 (by simp)).1; omega
        have hb2 : b2 ≠ 0 := by have := (hbytes b2 (by simp)).1; omega
        rw [ht1, ht2, ht3]
        norm_num [List.getD, cstring, List.takeWhile_cons, hb1, hb2]
      | [b0, b1, b2, b3], hsm, hlen, hbytes =>
        have hb0 : b0 = 58 := hsm.1
        subst hb0
        have hb1 : b1 ≠ 0 := by have := (hbytes b1 (by simp)).1; omega
        have hb2 : b2 ≠ 0 := by have := (hbytes b2 (by simp)).1; omega
        have hb3 : b3 ≠ 0 := by have := (hbytes b3 (by simp)).1; omega
        rw [ht1, ht2, ht3]
        norm_num [List.getD, cstring, List.takeWhile_cons, hb1, hb2, hb3]
      | b0 :: b1 :: b2 :: b3 :: b4 :: rest, hsm, hlen, hbytes =>
        exact absurd hsm.2 (by simp [List.length_cons])
    · intro a ha
      rw [free_mem, setWord_mem, setWord_mem,
        readByte_writeWord_out _ _ _ _ (by omega), readByte_writeWord_out _ _ _ _ (by omega)]
  · -- large sealer: token copied after the cell
    rw [alloc_seal_lg_eval cx s v hlen hsm]
    have hhdrlt : s.length * 256 + WIKRT_OTAG_SEAL < 4294967296 := by
      simp only [WIKRT_OTAG_SEAL]; omega
    have hrd : readWord (writeBytes (writeWord (writeWord cx.mem cx.next
        (s.length * 256 + WIKRT_OTAG_SEAL)) (cx.next + 4) v) (cx.next + 8) s) cx.next =
        s.length * 256 + WIKRT_OTAG_SEAL := by
      rw [readWord_writeBytes_out _ _ _ _ (by omega),
        readWord_writeWord_out _ _ _ _ (by omega),
        readWord_writeWord_self _ _ _ hhdrlt]
    have hrd4 : readWord (writeBytes (writeWord (writeWord cx.mem cx.next
        (s.length * 256 + WIKRT_OTAG_SEAL)) (cx.next + 4) v) (cx.next + 8) s) (cx.next + 4) =
        v := by
      rw [readWord_writeBytes_out _ _ _ _ (by omega),
        readWord_writeWord_self _ _ _ hv]
    have h36 : (s.length * 256 + WIKRT_OTAG_SEAL) % 256 = WIKRT_OTAG_SEAL := by
      simp only [WIKRT_OTAG_SEAL]; omega
    have hlenx : (s.length * 256 + WIKRT_OTAG_SEAL) / 256 % 64 = s.length := by
      simp only [WIKRT_OTAG_SEAL]; omega
    have htok : readBytes (writeBytes (writeWord (writeWord cx.mem cx.next
        (s.length * 256 + WIKRT_OTAG_SEAL)) (cx.next + 4) v) (cx.next + 8) s)
        (cx.next + 8) s.length = s :=
      readBytes_writeBytes _ _ s (fun b hb => (hbytes b hb).2)
    rw [split_seal_lg_eval _ _ htagO (by rw [haddr]; omega) (by rw [haddr]; rw [hrd]; exact h36)]
    rw [haddr, hrd, hrd4, hlenx, htok,
      cstring_of_ne_zero s (fun b hb => by have := (hbytes b hb).1; omega)]
    refine ⟨rfl, rfl, rfl, rfl, ?_, fun h => absurd h hsm⟩
    intro a ha
    rw [free_mem]
    show readByte (writeBytes (writeWord (writeWord cx.mem cx.next
      (s.length * 256 + WIKRT_OTAG_SEAL)) (cx.next + 4) v) (cx.next + 8) s) a = readByte cx.mem a
    rw [readByte_writeBytes_out _ _ _ _ (by omega),
      readByte_writeWord_out _ _ _ _ (by omega),
      readByte_writeWord_out _ _ _ _ (by omega)]

/-- Witness for C4: sealing unit with the two-byte token ":m" spends exactly
one cell and unsealing returns the token and unit. -/
theorem c4_seal_roundtrip_witness :
    (wikrt_alloc_seal initCx [58, 109] WIKRT_UNIT).1 = Err.OK ∧
    (wikrt_split_seal (wikrt_alloc_seal initCx [58, 109] WIKRT_UNIT).2.2
      (wikrt_alloc_seal initCx [58, 109] WIKRT_UNIT).2.1).2.1 = [58, 109] ∧
    (wikrt_split_seal (wikrt_alloc_seal initCx [58, 109] WIKRT_UNIT).2.2
      (wikrt_alloc_seal initCx [58, 109] WIKRT_UNIT).2.1).2.2.1 = WIKRT_UNIT ∧
    (wikrt_alloc_seal initCx [58, 109] WIKRT_UNIT).2.2.bytesAlloc =
      initCx.bytesAlloc + WIKRT_CELLSIZE := by
  obtain ⟨w1, _, w3, w4, _, w6⟩ := c4_seal_roundtrip initCx [58, 109] WIKRT_UNIT
    (by constructor <;> decide) (by decide) (by constructor <;> decide)
    (by intro b hb; simp only [List.mem_cons, List.mem_singleton] at hb;
        rcases hb with h | h | h <;> simp_all)
    (by intro _ b hb; simp only [List.mem_cons, List.mem_singleton] at hb;
        rcases hb with h | h | h <;> simp_all)
  exact ⟨w1, w3, w4, w6 (by constructor <;> decide)⟩

/-- Counterexample for C4: the valid two-codepoint token colon-RIGHTWARDS
ARROW (UTF-8 bytes 58, 226, 134, 146) takes the packed small-seal path; the
signed-char sign-extension blankets tag bytes 2 and 3 with 0xFF, so
unsealing returns the different token 58, 226, 255, 255 even though both
calls report WIKRT_OK and the sealed value itself survives. -/
theorem c4_seal_high_byte_corrupts :
    (wikrt_alloc_seal initCx [58, 226, 134, 146] WIKRT_UNIT).1 = Err.OK ∧
    (wikrt_split_seal (wikrt_alloc_seal initCx [58, 226, 134, 146] WIKRT_UNIT).2.2
      (wikrt_alloc_seal initCx [58, 226, 134, 146] WIKRT_UNIT).2.1).1 = Err.OK ∧
    (wikrt_split_seal (wikrt_alloc_seal initCx [58, 226, 134, 146] WIKRT_UNIT).2.2
      (wikrt_alloc_seal initCx [58, 226, 134, 146] WIKRT_UNIT).2.1).2.1 =
        [58, 226, 255, 255] ∧
    (wikrt_split_seal (wikrt_alloc_seal initCx [58, 226, 134, 146] WIKRT_UNIT).2.2
      (wikrt_alloc_seal initCx [58, 226, 134, 146] WIKRT_UNIT).2.1).2.2.1 =
        WIKRT_UNIT ∧
    [58, 226, 255, 255] ≠ [58, 226, 134, 146] := by
  refine ⟨by decide, by decide, by decide, by decide, by decide⟩

/-! ## C9: token validation for wrap_seal -/

theorem alloc_seal_ok (cx : Cx) (s : List Nat) (v : Nat)
    (h : 0 < s.length ∧ s.length < 64) :
    (wikrt_alloc_seal cx s v).1 = Err.OK := by
  by_cases hsm : s.headD 0 = 58 ∧ s.length ≤ 4
  · rw [alloc_seal_sm_eval cx s v h hsm]
  · rw [alloc_seal_lg_eval cx s v h hsm]

/-- C9: wrap_seal rejects with INVAL every token that is empty, longer than
63 bytes, or holding a codepoint failing the token-character predicate; only
tokens passing wikrt_valid_token are accepted, and the length bounds are
enforced by the internal _wikrt_alloc_seal as well. -/
theorem c9_wrap_seal_validation (cx : Cx) (cs : List Nat) (v : Nat) :
    ((utf8Encode cs).length = 0 ∨ (utf8Encode cs).length > 63 ∨
      (∃ c ∈ cs, wikrt_token_char c = false) →
      wikrt_wrap_seal cx cs v = (Err.INVAL, WIKRT_VOID, cx)) ∧
    ((wikrt_wrap_seal cx cs v).1 = Err.OK ↔ wikrt_valid_token cs = true) ∧
    ((utf8Encode cs).length = 0 ∨ (utf8Encode cs).length > 63 →
      wikrt_alloc_seal cx (utf8Encode cs) v = (Err.INVAL, WIKRT_VOID, cx)) := by
  refine ⟨?_, ⟨?_, ?_⟩, ?_⟩
  · intro hbad
    have hval : wikrt_valid_token cs = false := by
      rcases hbad with h | h | ⟨c, hc, hcf⟩
      · simp [wikrt_valid_token, h]
      · simp only [wikrt_valid_token, Bool.and_eq_false_iff]
        left
        right
        simpa using by omega
      · simp only [wikrt_valid_token, Bool.and_eq_false_iff]
        right
        simp only [List.all_eq_false]
        exact ⟨c, hc, by simp [hcf]⟩
    simp [wikrt_wrap_seal, hval]
  · intro hok
    by_contra hval
    have hval' : wikrt_valid_token cs = false := by
      cases h : wikrt_valid_token cs
      · rfl
      · exact absurd h hval
    simp [wikrt_wrap_seal, hval'] at hok
  · intro hval
    simp only [wikrt_wrap_seal, if_pos hval]
    have hb : 0 < (utf8Encode cs).length ∧ (utf8Encode cs).length < 64 := by
      simp only [wikrt_valid_token, Bool.and_eq_true, decide_eq_true_eq] at hval
      exact ⟨hval.1.1, hval.1.2⟩
    exact alloc_seal_ok cx _ v hb
  · intro hlen
    have hc : ¬(0 < (utf8Encode cs).length ∧ (utf8Encode cs).length < 64) := by omega
    simp [wikrt_alloc_seal, hc]

/-- Witness for C9: the empty token, a brace, and a valid token. -/
theorem c9_wrap_seal_validation_witness :
    wikrt_wrap_seal initCx [] 3 = (Err.INVAL, WIKRT_VOID, initCx) ∧
    wikrt_wrap_seal initCx [123] 3 = (Err.INVAL, WIKRT_VOID, initCx) ∧
    (wikrt_wrap_seal initCx [102, 111, 111] 3).1 = Err.OK :=
  ⟨(c9_wrap_seal_validation initCx [] 3).1 (by left; decide),
   (c9_wrap_seal_validation initCx [123] 3).1
     (by right; right; exact ⟨123, by decide, by decide⟩),
   (c9_wrap_seal_validation initCx [102, 111, 111] 3).2.1.mpr (by decide)⟩

/-! ## C6: text introduction -/

theorem utf8_step_encodeChar (c : Nat) (rest : List Nat) (hc : c < 1114112) :
    utf8_step (utf8EncodeChar c ++ rest) = some (c, rest) := by
  by_cases h1 : c < 128
  · simp only [utf8EncodeChar, if_pos h1, List.cons_append, List.nil_append, utf8_step]
    have hk : utf8_more c = 0 := by unfold utf8_more; rw [if_pos (by omega)]
    rw [hk]
    have hcond : ((rest.take 0).length = 0 ∧ (rest.take 0).all utf8_cont = true ∧
        (c < 128 ∨ 192 ≤ c)) := ⟨by simp, by simp, Or.inl h1⟩
    rw [if_pos hcond]
    simp only [List.take_zero, List.drop_zero, utf8_decodeCp, List.foldl_nil]
    rw [if_pos h1]
  by_cases h2 : c < 2048
  · simp only [utf8EncodeChar, if_neg h1, if_pos h2, List.cons_append, List.nil_append,
      utf8_step]
    have hk : utf8_more (192 + c / 64) = 1 := by
      unfold utf8_more; rw [if_neg (by omega), if_pos (by omega)]
    rw [hk]
    have hcond : ((((128 + c % 64) :: rest).take 1).length = 1 ∧
        (((128 + c % 64) :: rest).take 1).all utf8_cont = true ∧
        (192 + c / 64 < 128 ∨ 192 ≤ 192 + c / 64)) := by
      refine ⟨by simp, ?_, Or.inr (by omega)⟩
      simp only [List.take_succ_cons, List.take_zero, List.all_cons, List.all_nil,
        Bool.and_true, utf8_cont, Bool.and_eq_true, decide_eq_true_eq]
      omega
    rw [if_pos hcond]
    simp only [List.take_succ_cons, List.take_zero, List.drop_succ_cons, List.drop_zero,
      utf8_decodeCp, List.foldl_cons, List.foldl_nil]
    rw [if_neg (by omega), if_pos (by omega)]
    have he : (192 + c / 64 - 192) * 64 + (128 + c % 64 - 128) = c := by omega
    rw [he]
  by_cases h3 : c < 65536
  · simp only [utf8EncodeChar, if_neg h1, if_neg h2, if_pos h3, List.cons_append,
      List.nil_append, utf8_step]
    have hk : utf8_more (224 + c / 4096) = 2 := by
      unfold utf8_more; rw [if_neg (by omega), if_neg (by omega), if_pos (by omega)]
    rw [hk]
    have hcond : ((((128 + c / 64 % 64) :: (128 + c % 64) :: rest).take 2).length = 2 ∧
        (((128 + c / 64 % 64) :: (128 + c % 64) :: rest).take 2).all utf8_cont = true ∧
        (224 + c / 4096 < 128 ∨ 192 ≤ 224 + c / 4096)) := by
      refine ⟨by simp, ?_, Or.inr (by omega)⟩
      simp only [List.take_succ_cons, List.take_zero, List.all_cons, List.all_nil,
        Bool.and_true, utf8_cont, Bool.and_eq_true, decide_eq_true_eq]
      omega
    rw [if_pos hcond]
    simp only [List.take_succ_cons, List.take_zero, List.drop_succ_cons, List.drop_zero,
      utf8_decodeCp, List.foldl_cons, List.foldl_nil]
    rw [if_neg (by omega), if_neg (by omega), if_pos (by omega)]
    have he : ((224 + c / 4096 - 224) * 64 + (128 + c / 64 % 64 - 128)) * 64 +
        (128 + c % 64 - 128) = c := by omega
    rw [he]
  · simp only [utf8EncodeChar, if_neg h1, if_neg h2, if_neg h3, List.cons_append,
      List.nil_append, utf8_step]
    have hk : utf8_more (240 + c / 262144) = 3 := by
      unfold utf8_more
      rw [if_neg (by omega), if_neg (by omega), if_neg (by omega), if_pos (by omega)]
    rw [hk]
    have hcond : ((((128 + c / 4096 % 64) :: (128 + c / 64 % 64) :: (128 + c % 64) ::
        rest).take 3).length = 3 ∧
        (((128 + c / 4096 % 64) :: (128 + c / 64 % 64) :: (128 + c % 64) ::
        rest).take 3).all utf8_cont = true ∧
        (240 + c / 262144 < 128 ∨ 192 ≤ 240 + c / 262144)) := by
      refine ⟨by simp, ?_, Or.inr (by omega)⟩
      simp only [List.take_succ_cons, List.take_zero, List.all_cons, List.all_nil,
        Bool.and_true, utf8_cont, Bool.and_eq_true, decide_eq_true_eq]
      omega
    rw [if_pos hcond]
    simp only [List.take_succ_cons, List.take_zero, List.drop_succ_cons, List.drop_zero,
      utf8_decodeCp, List.foldl_cons, List.foldl_nil]
    rw [if_neg (by omega), if_neg (by omega), if_neg (by omega)]
    have he : (((240 + c / 262144 - 240) * 64 + (128 + c / 4096 % 64 - 128)) * 64 +
        (128 + c / 64 % 64 - 128)) * 64 + (128 + c % 64 - 128) = c := by omega
    rw [he]

theorem utf8_step_truncated (c k : Nat) (hc : c < 1114112) (hk : 0 < k)
    (hkl : k < (utf8EncodeChar c).length) :
    ∃ rest, utf8_step ((utf8EncodeChar c).take k) = some (0xFFFD, rest) := by
  by_cases h1 : c < 128
  · exfalso
    simp only [utf8EncodeChar, if_pos h1, List.length_cons, List.length_nil] at hkl
    omega
  by_cases h2 : c < 2048
  · simp only [utf8EncodeChar, if_neg h1, if_pos h2, List.length_cons,
      List.length_nil] at hkl ⊢
    have hmore : utf8_more (192 + c / 64) = 1 := by
      unfold utf8_more; rw [if_neg (by omega), if_pos (by omega)]
    interval_cases k
    · refine ⟨[], ?_⟩
      simp only [List.take_succ_cons, List.take_zero, utf8_step, hmore]
      rw [if_neg (by simp)]
  by_cases h3 : c < 65536
  · simp only [utf8EncodeChar, if_neg h1, if_neg h2, if_pos h3, List.length_cons,
      List.length_nil] at hkl ⊢
    have hmore : utf8_more (224 + c / 4096) = 2 := by
      unfold utf8_more; rw [if_neg (by omega), if_neg (by omega), if_pos (by omega)]
    interval_cases k
    · refine ⟨[], ?_⟩
      simp only [List.take_succ_cons, List.take_zero, utf8_step, hmore]
      rw [if_neg (by simp)]
    · refine ⟨[128 + c / 64 % 64], ?_⟩
      simp only [List.take_succ_cons, List.take_zero, utf8_step, hmore]
      rw [if_neg (by simp)]
  · simp only [utf8EncodeChar, if_neg h1, if_neg h2, if_neg h3, List.length_cons,
      List.length_nil] at hkl ⊢
    have hmore : utf8_more (240 + c / 262144) = 3 := by
      unfold utf8_more
      rw [if_neg (by omega), if_neg (by omega), if_neg (by omega), if_pos (by omega)]
    interval_cases k
    · refine ⟨[], ?_⟩
      simp only [List.take_succ_cons, List.take_zero, utf8_step, hmore]
      rw [if_neg (by simp)]
    · refine ⟨[128 + c / 4096 % 64], ?_⟩
      simp only [List.take_succ_cons, List.take_zero, utf8_step, hmore]
      rw [if_neg (by simp)]
    · refine ⟨[128 + c / 4096 % 64, 128 + c / 64 % 64], ?_⟩
      simp only [List.take_succ_cons, List.take_zero, utf8_step, hmore]
      rw [if_neg (by simp)]

theorem go_step (cx : Cx) (c : Nat) (bs : List Nat) (hc : c < 1114112)
    (ht : wikrt_text_char c = true) :
    ∃ cx', (wikrt_alloc_text_go cx (utf8EncodeChar c ++ bs)).1 =
      (wikrt_alloc_text_go cx' bs).1 := by
  rw [wikrt_alloc_text_go]
  split
  · next heq =>
    rw [utf8_step_encodeChar c bs hc] at heq
    exact absurd heq (by simp)
  · next cp rest heq =>
    rw [utf8_step_encodeChar c bs hc] at heq
    obtain ⟨hcp, hrest⟩ : cp = c ∧ rest = bs := by
      have := Option.some.inj heq
      exact ⟨(congrArg Prod.fst this).symm, (congrArg Prod.snd this).symm⟩
    subst hcp
    subst hrest
    rw [if_neg (by simp [ht])]
    exact ⟨_, rfl⟩

theorem go_inval_cons (cx : Cx) (c : Nat) (bs : List Nat) (hc : c < 1114112)
    (ht : wikrt_text_char c = false) :
    (wikrt_alloc_text_go cx (utf8EncodeChar c ++ bs)).1 = Err.INVAL := by
  rw [wikrt_alloc_text_go]
  split
  · next heq =>
    rw [utf8_step_encodeChar c bs hc] at heq
    exact absurd heq (by simp)
  · next cp rest heq =>
    rw [utf8_step_encodeChar c bs hc] at heq
    have hcp : cp = c := (congrArg Prod.fst (Option.some.inj heq)).symm
    subst hcp
    rw [if_pos (by simp [ht])]

theorem go_inval_truncated (cx : Cx) (c k : Nat) (hc : c < 1114112)
    (hk : 0 < k) (hkl : k < (utf8EncodeChar c).length) :
    (wikrt_alloc_text_go cx ((utf8EncodeChar c).take k)).1 = Err.INVAL := by
  obtain ⟨rest, hstep⟩ := utf8_step_truncated c k hc hk hkl
  rw [wikrt_alloc_text_go]
  split
  · next heq =>
    rw [hstep] at heq
    exact absurd heq (by simp)
  · next cp r heq =>
    rw [hstep] at heq
    have hcp : cp = 65533 := (congrArg Prod.fst (Option.some.inj heq)).symm
    subst hcp
    rw [if_pos (by decide)]

/-- C6: intro_text on the empty input builds the empty list, the right-unit
value, touching nothing; it fails with INVAL whenever the UTF-8 input holds
a forbidden codepoint (a control character other than LF, or the replacement
character); and it fails with INVAL when the input ends in a partial UTF-8
sequence at the size limit. -/
theorem c6_intro_text :
    (∀ cx : Cx, wikrt_alloc_text cx [] = (Err.OK, WIKRT_UNIT_INR, cx)) ∧
    (∀ (cps : List Nat) (cx : Cx), (∀ c ∈ cps, c < 1114112) →
      (∃ c ∈ cps, wikrt_text_char c = false) →
      (wikrt_alloc_text cx (utf8Encode cps)).1 = Err.INVAL) ∧
    (∀ (cps : List Nat) (c k : Nat) (cx : Cx),
      (∀ x ∈ cps, x < 1114112 ∧ wikrt_text_char x = true) →
      c < 1114112 → 0 < k → k < (utf8EncodeChar c).length →
      (wikrt_alloc_text cx (utf8Encode cps ++ (utf8EncodeChar c).take k)).1 =
        Err.INVAL) := by
  refine ⟨fun cx => ?_, ?_, ?_⟩
  · rw [wikrt_alloc_text, wikrt_alloc_text_go]
    split
    · rfl
    · next cp r heq => simp [utf8_step] at heq
  · intro cps
    induction cps with
    | nil =>
      intro cx _ hbad
      simp at hbad
    | cons c cs ih =>
      intro cx hval hbad
      rw [wikrt_alloc_text, utf8Encode]
      by_cases htc : wikrt_text_char c = true
      · obtain ⟨cx2, hstep⟩ := go_step cx c (utf8Encode cs) (hval c (by simp)) htc
        rw [hstep]
        refine ih cx2 (fun d hd => hval d (by simp [hd])) ?_
        obtain ⟨d, hd, hdf⟩ := hbad
        rcases List.mem_cons.mp hd with h | h
        · subst h
          exact absurd htc (by simp [hdf])
        · exact ⟨d, h, hdf⟩
      · exact go_inval_cons cx c (utf8Encode cs) (hval c (by simp))
          (by cases h : wikrt_text_char c; rfl; exact absurd h htc)
  · intro cps
    induction cps with
    | nil =>
      intro c k cx _ hc hk hkl
      rw [wikrt_alloc_text, utf8Encode, List.nil_append]
      exact go_inval_truncated cx c k hc hk hkl
    | cons d ds ih =>
      intro c k cx hval hc hk hkl
      rw [wikrt_alloc_text, utf8Encode, List.append_assoc]
      obtain ⟨cx2, hstep⟩ := go_step cx d (utf8Encode ds ++ (utf8EncodeChar c).take k)
        (hval d (by simp)).1 (hval d (by simp)).2
      rw [hstep]
      exact ih c k cx2 (fun x hx => hval x (by simp [hx])) hc hk hkl

/-- Witness for C6: a bell control character is rejected, the one-byte
truncation of the arrow U+2192 is rejected, and the empty text is the
right-unit value. -/
theorem c6_intro_text_witness :
    wikrt_alloc_text initCx [] = (Err.OK, WIKRT_UNIT_INR, initCx) ∧
    (wikrt_alloc_text initCx (utf8Encode [7])).1 = Err.INVAL ∧
    (wikrt_alloc_text initCx (utf8Encode [] ++ (utf8EncodeChar 0x2192).take 1)).1 =
      Err.INVAL :=
  ⟨c6_intro_text.1 initCx,
   c6_intro_text.2.1 [7] initCx (by decide) ⟨7, by decide, by decide⟩,
   c6_intro_text.2.2 [] 0x2192 1 initCx (by simp) (by decide) (by decide) (by decide)⟩

/-! ## C1, C7, C10: integers -/

theorem i2v_small (n : Int) (hlo : -(2 ^ 30 - 1) ≤ n) (hhi : n ≤ 2 ^ 30 - 1) :
    wikrt_i2v n % 2 = 0 ∧ sint32 (wikrt_i2v n) = 2 * n := by
  unfold wikrt_i2v toWord sint32
  constructor
  · omega
  · split <;> omega

theorem v2i_i2v (n : Int) (hlo : -(2 ^ 30 - 1) ≤ n) (hhi : n ≤ 2 ^ 30 - 1) :
    wikrt_v2i (wikrt_i2v n) = n := by
  unfold wikrt_v2i
  rw [(i2v_small n hlo hhi).2]
  exact Int.mul_fdiv_cancel_left n (by norm_num)

theorem alloc_medint_eval2 (cx : Cx) (p : Bool) (d0 d1 : Nat) :
    wikrt_alloc_medint cx p d0 d1 0 =
      (Err.OK, wikrt_tag_addr WIKRT_O cx.next,
        setWord (setWord (setWord
          { cx with next := cx.next + 16, bytesAlloc := cx.bytesAlloc + 16 }
          cx.next (wikrt_mkotag_bigint p 2)) (cx.next + 4) d0) (cx.next + 8) d1) := by
  simp only [wikrt_alloc_medint, if_pos rfl, wikrt_alloc]
  rfl

theorem alloc_medint_eval3 (cx : Cx) (p : Bool) (d0 d1 d2 : Nat) (h : d2 ≠ 0) :
    wikrt_alloc_medint cx p d0 d1 d2 =
      (Err.OK, wikrt_tag_addr WIKRT_O cx.next,
        setWord (setWord (setWord (setWord
          { cx with next := cx.next + 16, bytesAlloc := cx.bytesAlloc + 16 }
          cx.next (wikrt_mkotag_bigint p 3)) (cx.next + 4) d0) (cx.next + 8) d1)
          (cx.next + 12) d2) := by
  simp only [wikrt_alloc_medint, if_neg h, wikrt_alloc]
  rfl

theorem alloc_medint_peek (cx : Cx) (p : Bool) (d0 d1 d2 : Nat) (hWF : cx.WF)
    (h0 : d0 < 1000000000) (h1 : d1 < 1000000000) (h2 : d2 < 1000000000) :
    (wikrt_alloc_medint cx p d0 d1 d2).1 = Err.OK ∧
    (wikrt_alloc_medint cx p d0 d1 d2).2.1 % 2 = 1 ∧
    wikrt_peek_medint (wikrt_alloc_medint cx p d0 d1 d2).2.2
      (wikrt_alloc_medint cx p d0 d1 d2).2.1 = (Err.OK, p, d0, d1, d2) := by
  obtain ⟨hnpos, hnmod⟩ := hWF
  have hodd : wikrt_tag_addr WIKRT_O cx.next % 2 = 1 := by
    simp only [wikrt_tag_addr, WIKRT_O]; omega
  have htag : wikrt_vtag (wikrt_tag_addr WIKRT_O cx.next) = WIKRT_O := by
    simp only [wikrt_vtag, wikrt_tag_addr, WIKRT_O]; omega
  have haddr : wikrt_vaddr (wikrt_tag_addr WIKRT_O cx.next) = cx.next := by
    simp only [wikrt_vaddr, wikrt_tag_addr, WIKRT_O]; omega
  have hmk : wikrt_mkotag_bigint p 2 = (2 * 2 + (if p then 0 else 1)) * 256 + 78 := by
    simp [wikrt_mkotag_bigint]
  have hmk3 : wikrt_mkotag_bigint p 3 = (2 * 3 + (if p then 0 else 1)) * 256 + 78 := by
    simp [wikrt_mkotag_bigint]
  have hslt : (if p then 0 else 1) ≤ 1 := by cases p <;> simp
  by_cases hd2 : d2 = 0
  · subst hd2
    rw [alloc_medint_eval2]
    have hrd : readWord (setWord (setWord (setWord
        { cx with next := cx.next + 16, bytesAlloc := cx.bytesAlloc + 16 }
        cx.next (wikrt_mkotag_bigint p 2)) (cx.next + 4) d0) (cx.next + 8) d1).mem
        cx.next = wikrt_mkotag_bigint p 2 := by
      rw [setWord_mem, setWord_mem, setWord_mem,
        readWord_writeWord_out _ _ _ _ (by omega), readWord_writeWord_out _ _ _ _ (by omega),
        readWord_writeWord_self _ _ _ (by rw [hmk]; omega)]
    have hrd4 : readWord (setWord (setWord (setWord
        { cx with next := cx.next + 16, bytesAlloc := cx.bytesAlloc + 16 }
        cx.next (wikrt_mkotag_bigint p 2)) (cx.next + 4) d0) (cx.next + 8) d1).mem
        (cx.next + 4) = d0 := by
      rw [setWord_mem, setWord_mem,
        readWord_writeWord_out _ _ _ _ (by omega),
        readWord_writeWord_self _ _ _ (by omega)]
    have hrd8 : readWord (setWord (setWord (setWord
        { cx with next := cx.next + 16, bytesAlloc := cx.bytesAlloc + 16 }
        cx.next (wikrt_mkotag_bigint p 2)) (cx.next + 4) d0) (cx.next + 8) d1).mem
        (cx.next + 8) = d1 := by
      rw [setWord_mem, readWord_writeWord_self _ _ _ (by omega)]
    refine ⟨rfl, hodd, ?_⟩
    simp only []
    rw [wikrt_peek_medint, if_neg (by omega), haddr]
    dsimp only
    rw [hrd]
    rw [if_pos ⟨by omega, htag, by rw [hmk]; simp only [WIKRT_OTAG_BIGINT]; omega⟩]
    rw [hrd4, hrd8]
    have hnd : wikrt_mkotag_bigint p 2 / 512 = 2 := by rw [hmk]; omega
    rw [hnd]
    simp only [Prod.mk.injEq]
    refine ⟨by norm_num, ?_, by trivial, by trivial, by norm_num⟩
    rw [hmk]
    cases p <;> simp
  · rw [alloc_medint_eval3 cx p d0 d1 d2 hd2]
    have hrd : readWord (setWord (setWord (setWord (setWord
        { cx with next := cx.next + 16, bytesAlloc := cx.bytesAlloc + 16 }
        cx.next (wikrt_mkotag_bigint p 3)) (cx.next + 4) d0) (cx.next + 8) d1)
        (cx.next + 12) d2).mem cx.next = wikrt_mkotag_bigint p 3 := by
      rw [setWord_mem, setWord_mem, setWord_mem, setWord_mem,
        readWord_writeWord_out _ _ _ _ (by omega), readWord_writeWord_out _ _ _ _ (by omega),
        readWord_writeWord_out _ _ _ _ (by omega),
        readWord_writeWord_self _ _ _ (by rw [hmk3]; omega)]
    have hrd4 : readWord (setWord (setWord (setWord (setWord
        { cx with next := cx.next + 16, bytesAlloc := cx.bytesAlloc + 16 }
        cx.next (wikrt_mkotag_bigint p 3)) (cx.next + 4) d0) (cx.next + 8) d1)
        (cx.next + 12) d2).mem (cx.next + 4) = d0 := by
      rw [setWord_mem, setWord_mem, setWord_mem,
        readWord_writeWord_out _ _ _ _ (by omega), readWord_writeWord_out _ _ _ _ (by omega),
        readWord_writeWord_self _ _ _ (by omega)]
    have hrd8 : readWord (setWord (setWord (setWord (setWord
        { cx with next := cx.next + 16, bytesAlloc := cx.bytesAlloc + 16 }
        cx.next (wikrt_mkotag_bigint p 3)) (cx.next + 4) d0) (cx.next + 8) d1)
        (cx.next + 12) d2).mem (cx.next + 8) = d1 := by
      rw [setWord_mem, setWord_mem,
        readWord_writeWord_out _ _ _ _ (by omega),
        readWord_writeWord_self _ _ _ (by omega)]
    have hrd12 : readWord (setWord (setWord (setWord (setWord
        { cx with next := cx.next + 16, bytesAlloc := cx.bytesAlloc + 16 }
        cx.next (wikrt_mkotag_bigint p 3)) (cx.next + 4) d0) (cx.next + 8) d1)
        (cx.next + 12) d2).mem (cx.next + 12) = d2 := by
      rw [setWord_mem, readWord_writeWord_self _ _ _ (by omega)]
    refine ⟨rfl, hodd, ?_⟩
    simp only []
    rw [wikrt_peek_medint, if_neg (by omega), haddr]
    dsimp only
    rw [hrd]
    rw [if_pos ⟨by omega, htag, by rw [hmk3]; simp only [WIKRT_OTAG_BIGINT]; omega⟩]
    rw [hrd4, hrd8]
    have hnd : wikrt_mkotag_bigint p 3 / 512 = 3 := by rw [hmk3]; omega
    rw [hnd]
    rw [if_neg (by norm_num : ¬ (3:Nat) > 3), if_pos (by norm_num : (3:Nat) > 2), hrd12]
    simp only [Prod.mk.injEq]
    refine ⟨trivial, ?_, trivial⟩
    rw [hmk3]
    cases p <;> simp

theorem peek_i32_medint (cx : Cx) (p : Bool) (d0 d1 d2 : Nat) (hWF : cx.WF)
    (h0 : d0 < 1000000000) (h1 : d1 < 1000000000) (h2 : d2 < 1000000000) :
    wikrt_peek_i32 (wikrt_alloc_medint cx p d0 d1 d2).2.2
      (wikrt_alloc_medint cx p d0 d1 d2).2.1 =
      if p then
        (if d2 ≠ 0 ∨ d1 > 2 ∨ (d1 = 2 ∧ d0 > 147483647)
         then (Err.BUFFSZ, (2147483647 : Int))
         else (Err.OK, ((d1 * 1000000000 + d0 : Nat) : Int)))
      else
        (if d2 ≠ 0 ∨ d1 > 2 ∨ (d1 = 2 ∧ d0 > 147483648)
         then (Err.BUFFSZ, (-2147483648 : Int))
         else (Err.OK, 0 - ((d1 * 1000000000 + d0 : Nat) : Int))) := by
  obtain ⟨-, hodd, hpeek⟩ := alloc_medint_peek cx p d0 d1 d2 hWF h0 h1 h2
  rw [wikrt_peek_i32, if_neg (by omega), hpeek]
  dsimp only
  rw [if_neg (by simp)]

theorem peek_i64_medint (cx : Cx) (p : Bool) (d0 d1 d2 : Nat) (hWF : cx.WF)
    (h0 : d0 < 1000000000) (h1 : d1 < 1000000000) (h2 : d2 < 1000000000) :
    wikrt_peek_i64 (wikrt_alloc_medint cx p d0 d1 d2).2.2
      (wikrt_alloc_medint cx p d0 d1 d2).2.1 =
      if d2 = 0 then
        (Err.OK, if p then ((d1 * 1000000000 + d0 : Nat) : Int)
                 else -((d1 * 1000000000 + d0 : Nat) : Int))
      else if p then
        (if d2 > 9 ∨ (d2 = 9 ∧ (d1 > 223372036 ∨ (d1 = 223372036 ∧ d0 > 854775807)))
         then (Err.BUFFSZ, (9223372036854775807 : Int))
         else (Err.OK, ((d2 * (1000000000 * 1000000000) + d1 * 1000000000 + d0 : Nat) : Int)))
      else
        (if d2 > 9 ∨ (d2 = 9 ∧ (d1 > 223372036 ∨ (d1 = 223372036 ∧ d0 > 854775808)))
         then (Err.BUFFSZ, (-9223372036854775808 : Int))
         else (Err.OK, 0 - ((d2 * (1000000000 * 1000000000) + d1 * 1000000000 + d0 : Nat) : Int))) := by
  obtain ⟨-, hodd, hpeek⟩ := alloc_medint_peek cx p d0 d1 d2 hWF h0 h1 h2
  rw [wikrt_peek_i64, if_neg (by omega), hpeek]
  dsimp only
  rw [if_neg (by simp)]

/-- C7: intro_i32 keeps the context unchanged and yields a shallow (even)
small-integer word exactly when the argument lies within plus or minus
(2^30 - 1); every int32 introduces successfully and peek_i32 reads back the
same integer, on both sides of the boundary. -/
theorem c7_intro_i32_smallint_boundary (cx : Cx) (n : Int) (hWF : cx.WF)
    (hlo : -(2 ^ 31) ≤ n) (hhi : n ≤ 2 ^ 31 - 1) :
    (wikrt_alloc_i32 cx n).1 = Err.OK ∧
    ((wikrt_alloc_i32 cx n).2.2 = cx ∧ (wikrt_alloc_i32 cx n).2.1 % 2 = 0 ↔
      -(2 ^ 30 - 1) ≤ n ∧ n ≤ 2 ^ 30 - 1) ∧
    wikrt_peek_i32 (wikrt_alloc_i32 cx n).2.2 (wikrt_alloc_i32 cx n).2.1 =
      (Err.OK, n) := by
  by_cases hsmall : -(2 ^ 30 - 1) ≤ n ∧ n ≤ 2 ^ 30 - 1
  · have heval : wikrt_alloc_i32 cx n = (Err.OK, wikrt_i2v n, cx) := by
      rw [wikrt_alloc_i32, if_pos]
      exact ⟨hsmall.1, hsmall.2⟩
    rw [heval]
    refine ⟨rfl, ?_, ?_⟩
    · exact iff_of_true ⟨rfl, (i2v_small n hsmall.1 hsmall.2).1⟩ hsmall
    · rw [wikrt_peek_i32, if_pos (i2v_small n hsmall.1 hsmall.2).1,
        v2i_i2v n hsmall.1 hsmall.2]
  · have hbig : ¬ (WIKRT_SMALLINT_MIN ≤ n ∧ n ≤ WIKRT_SMALLINT_MAX) := by
      simp only [WIKRT_SMALLINT_MIN, WIKRT_SMALLINT_MAX]
      exact hsmall
    by_cases hmin : n = -(2 ^ 31)
    · subst hmin
      have heval : wikrt_alloc_i32 cx (-(2 ^ 31)) =
          wikrt_alloc_medint cx false 147483648 2 0 := by
        rw [wikrt_alloc_i32, if_neg hbig, if_neg (by simp)]
      rw [heval]
      obtain ⟨hok, hodd, -⟩ :=
        alloc_medint_peek cx false 147483648 2 0 hWF (by norm_num) (by norm_num)
          (by norm_num)
      refine ⟨hok, ?_, ?_⟩
      · constructor
        · rintro ⟨-, hev⟩
          omega
        · rintro ⟨h, -⟩
          exact absurd h (by norm_num)
      · rw [peek_i32_medint cx false 147483648 2 0 hWF (by norm_num) (by norm_num)
          (by norm_num)]
        norm_num
    · have heval : wikrt_alloc_i32 cx n =
          wikrt_alloc_medint cx (decide (0 ≤ n)) (n.natAbs % 1000000000)
            (n.natAbs / 1000000000) 0 := by
        rw [wikrt_alloc_i32, if_neg hbig, if_pos hmin]
      have habs : n.natAbs ≤ 2 ^ 31 - 1 := by omega
      have hlow : 2 ^ 30 - 1 < n.natAbs := by
        simp only [WIKRT_SMALLINT_MIN, WIKRT_SMALLINT_MAX] at hbig
        omega
      have hd0 : n.natAbs % 1000000000 < 1000000000 := Nat.mod_lt _ (by norm_num)
      have hd1 : n.natAbs / 1000000000 < 1000000000 := by omega
      rw [heval]
      obtain ⟨hok, hodd, -⟩ :=
        alloc_medint_peek cx (decide (0 ≤ n)) (n.natAbs % 1000000000)
          (n.natAbs / 1000000000) 0 hWF hd0 hd1 (by norm_num)
      refine ⟨hok, ?_, ?_⟩
      · constructor
        · rintro ⟨-, hev⟩
          omega
        · rintro hc
          exact absurd hc hsmall
      · rw [peek_i32_medint cx (decide (0 ≤ n)) (n.natAbs % 1000000000)
          (n.natAbs / 1000000000) 0 hWF hd0 hd1 (by norm_num)]
        by_cases hpos : 0 ≤ n
        · rw [if_pos (by simp [hpos]), if_neg (by omega)]
          simp only [Prod.mk.injEq]
          refine ⟨trivial, ?_⟩
          omega
        · rw [if_neg (by simp [hpos]), if_neg (by omega)]
          simp only [Prod.mk.injEq]
          refine ⟨trivial, ?_⟩
          omega

theorem c7_intro_i32_smallint_boundary_witness :
    initCx.WF ∧
    ((wikrt_alloc_i32 initCx 1073741823).2.2 = initCx ∧
      (wikrt_alloc_i32 initCx 1073741823).2.1 % 2 = 0) ∧
    wikrt_peek_i32 (wikrt_alloc_i32 initCx 1073741823).2.2
      (wikrt_alloc_i32 initCx 1073741823).2.1 = (Err.OK, 1073741823) ∧
    ¬ ((wikrt_alloc_i32 initCx 1073741824).2.2 = initCx ∧
      (wikrt_alloc_i32 initCx 1073741824).2.1 % 2 = 0) ∧
    wikrt_peek_i32 (wikrt_alloc_i32 initCx 1073741824).2.2
      (wikrt_alloc_i32 initCx 1073741824).2.1 = (Err.OK, 1073741824) := by
  have hWF : initCx.WF := by constructor <;> norm_num [initCx]
  obtain ⟨-, hiff1, hpeek1⟩ :=
    c7_intro_i32_smallint_boundary initCx 1073741823 hWF (by norm_num) (by norm_num)
  obtain ⟨-, hiff2, hpeek2⟩ :=
    c7_intro_i32_smallint_boundary initCx 1073741824 hWF (by norm_num) (by norm_num)
  refine ⟨hWF, hiff1.mpr (by norm_num), hpeek1, ?_, hpeek2⟩
  intro hc
  have := hiff2.mp hc
  norm_num at this

/-- C1: for every 64-bit integer n, intro_i64 followed by peek_i64 returns
exactly n; but the decimal leg of the claimed round-trip fails, because
_wikrt_alloc_istr in the source is an unimplemented stub that returns
WIKRT_IMPL and leaves the result as WIKRT_VOID for every input string, so
intro_istr of the decimal form never yields the integer value. -/
theorem c1_i64_roundtrip_and_istr_stub :
    (∀ (cx : Cx) (n : Int), cx.WF → -(2 ^ 63) ≤ n → n ≤ 2 ^ 63 - 1 →
      (wikrt_alloc_i64 cx n).1 = Err.OK ∧
      wikrt_peek_i64 (wikrt_alloc_i64 cx n).2.2 (wikrt_alloc_i64 cx n).2.1 =
        (Err.OK, n)) ∧
    (∀ (cx : Cx) (s : List Nat),
      wikrt_alloc_istr cx s = (Err.IMPL, WIKRT_VOID, cx)) := by
  refine ⟨?_, fun cx s => rfl⟩
  intro cx n hWF hlo hhi
  by_cases hsmall : -(2 ^ 30 - 1) ≤ n ∧ n ≤ 2 ^ 30 - 1
  · have heval : wikrt_alloc_i64 cx n = (Err.OK, wikrt_i2v n, cx) := by
      rw [wikrt_alloc_i64, if_pos]
      exact ⟨hsmall.1, hsmall.2⟩
    rw [heval]
    refine ⟨rfl, ?_⟩
    rw [wikrt_peek_i64, if_pos (i2v_small n hsmall.1 hsmall.2).1,
      v2i_i2v n hsmall.1 hsmall.2]
  · have hbig : ¬ (WIKRT_SMALLINT_MIN ≤ n ∧ n ≤ WIKRT_SMALLINT_MAX) := by
      simp only [WIKRT_SMALLINT_MIN, WIKRT_SMALLINT_MAX]
      exact hsmall
    by_cases hmin : n = -(2 ^ 63)
    · subst hmin
      have heval : wikrt_alloc_i64 cx (-(2 ^ 63)) =
          wikrt_alloc_medint cx false 854775808 223372036 9 := by
        rw [wikrt_alloc_i64, if_neg hbig, if_neg (by simp)]
      rw [heval]
      obtain ⟨hok, -, -⟩ :=
        alloc_medint_peek cx false 854775808 223372036 9 hWF (by norm_num)
          (by norm_num) (by norm_num)
      refine ⟨hok, ?_⟩
      rw [peek_i64_medint cx false 854775808 223372036 9 hWF (by norm_num)
        (by norm_num) (by norm_num)]
      norm_num
    · have heval : wikrt_alloc_i64 cx n =
          wikrt_alloc_medint cx (decide (0 ≤ n)) (n.natAbs % 1000000000)
            (n.natAbs / 1000000000 % 1000000000)
            (n.natAbs / 1000000000 / 1000000000) := by
        rw [wikrt_alloc_i64, if_neg hbig, if_pos hmin]
      have habs : n.natAbs ≤ 2 ^ 63 - 1 := by omega
      have hd0 : n.natAbs % 1000000000 < 1000000000 := Nat.mod_lt _ (by norm_num)
      have hd1 : n.natAbs / 1000000000 % 1000000000 < 1000000000 :=
        Nat.mod_lt _ (by norm_num)
      have hd2 : n.natAbs / 1000000000 / 1000000000 < 1000000000 := by omega
      rw [heval]
      obtain ⟨hok, -, -⟩ :=
        alloc_medint_peek cx (decide (0 ≤ n)) (n.natAbs % 1000000000)
          (n.natAbs / 1000000000 % 1000000000)
          (n.natAbs / 1000000000 / 1000000000) hWF hd0 hd1 hd2
      refine ⟨hok, ?_⟩
      rw [peek_i64_medint cx (decide (0 ≤ n)) (n.natAbs % 1000000000)
        (n.natAbs / 1000000000 % 1000000000)
        (n.natAbs / 1000000000 / 1000000000) hWF hd0 hd1 hd2]
      by_cases hz : n.natAbs / 1000000000 / 1000000000 = 0
      · rw [if_pos hz]
        by_cases hpos : 0 ≤ n
        · rw [if_pos (by simp [hpos])]
          simp only [Prod.mk.injEq]
          refine ⟨trivial, ?_⟩
          omega
        · rw [if_neg (by simp [hpos])]
          simp only [Prod.mk.injEq]
          refine ⟨trivial, ?_⟩
          omega
      · rw [if_neg hz]
        by_cases hpos : 0 ≤ n
        · rw [if_pos (by simp [hpos]), if_neg (by omega)]
          simp only [Prod.mk.injEq]
          refine ⟨trivial, ?_⟩
          omega
        · rw [if_neg (by simp [hpos]), if_neg (by omega)]
          simp only [Prod.mk.injEq]
          refine ⟨trivial, ?_⟩
          omega

theorem c1_i64_roundtrip_and_istr_stub_witness :
    initCx.WF ∧
    wikrt_peek_i64 (wikrt_alloc_i64 initCx 5000000000).2.2
      (wikrt_alloc_i64 initCx 5000000000).2.1 = (Err.OK, 5000000000) ∧
    wikrt_alloc_istr initCx [48] = (Err.IMPL, WIKRT_VOID, initCx) := by
  have hWF : initCx.WF := by constructor <;> norm_num [initCx]
  exact ⟨hWF,
    (c1_i64_roundtrip_and_istr_stub.1 initCx 5000000000 hWF (by norm_num)
      (by norm_num)).2,
    c1_i64_roundtrip_and_istr_stub.2 initCx [48]⟩

/-- C10: when the stored bignum magnitude N = d2*10^18 + d1*10^9 + d0 (sign p)
does not fit the requested width, peek_i32 returns BUFFSZ with the saturated
bound INT32_MAX or INT32_MIN, and peek_i64 likewise with INT64_MAX or
INT64_MIN; the peek functions take the context and return only a status and
number, so the stored value is neither consumed nor modified. -/
theorem c10_peek_saturates (cx : Cx) (p : Bool) (d0 d1 d2 : Nat) (hWF : cx.WF)
    (h0 : d0 < 1000000000) (h1 : d1 < 1000000000) (h2 : d2 < 1000000000) :
    ((p = true ∧ 2147483647 < d2 * 10 ^ 18 + d1 * 10 ^ 9 + d0) →
      wikrt_peek_i32 (wikrt_alloc_medint cx p d0 d1 d2).2.2
        (wikrt_alloc_medint cx p d0 d1 d2).2.1 = (Err.BUFFSZ, 2147483647)) ∧
    ((p = false ∧ 2147483648 < d2 * 10 ^ 18 + d1 * 10 ^ 9 + d0) →
      wikrt_peek_i32 (wikrt_alloc_medint cx p d0 d1 d2).2.2
        (wikrt_alloc_medint cx p d0 d1 d2).2.1 = (Err.BUFFSZ, -2147483648)) ∧
    ((p = true ∧ 9223372036854775807 < d2 * 10 ^ 18 + d1 * 10 ^ 9 + d0) →
      wikrt_peek_i64 (wikrt_alloc_medint cx p d0 d1 d2).2.2
        (wikrt_alloc_medint cx p d0 d1 d2).2.1 =
          (Err.BUFFSZ, 9223372036854775807)) ∧
    ((p = false ∧ 9223372036854775808 < d2 * 10 ^ 18 + d1 * 10 ^ 9 + d0) →
      wikrt_peek_i64 (wikrt_alloc_medint cx p d0 d1 d2).2.2
        (wikrt_alloc_medint cx p d0 d1 d2).2.1 =
          (Err.BUFFSZ, -9223372036854775808)) := by
  refine ⟨?_, ?_, ?_, ?_⟩
  · rintro ⟨hp, hN⟩
    subst hp
    rw [peek_i32_medint cx true d0 d1 d2 hWF h0 h1 h2]
    rw [if_pos rfl, if_pos (by omega)]
  · rintro ⟨hp, hN⟩
    subst hp
    rw [peek_i32_medint cx false d0 d1 d2 hWF h0 h1 h2]
    rw [if_neg (by simp), if_pos (by omega)]
  · rintro ⟨hp, hN⟩
    subst hp
    rw [peek_i64_medint cx true d0 d1 d2 hWF h0 h1 h2]
    rw [if_neg (by omega), if_pos rfl, if_pos (by omega)]
  · rintro ⟨hp, hN⟩
    subst hp
    rw [peek_i64_medint cx false d0 d1 d2 hWF h0 h1 h2]
    rw [if_neg (by omega), if_neg (by simp), if_pos (by omega)]

theorem c10_peek_saturates_witness :
    initCx.WF ∧
    wikrt_peek_i32 (wikrt_alloc_medint initCx true 0 3 0).2.2
      (wikrt_alloc_medint initCx true 0 3 0).2.1 = (Err.BUFFSZ, 2147483647) ∧
    wikrt_peek_i32 (wikrt_alloc_medint initCx false 0 3 0).2.2
      (wikrt_alloc_medint initCx false 0 3 0).2.1 = (Err.BUFFSZ, -2147483648) ∧
    wikrt_peek_i64 (wikrt_alloc_medint initCx true 0 0 10).2.2
      (wikrt_alloc_medint initCx true 0 0 10).2.1 =
        (Err.BUFFSZ, 9223372036854775807) ∧
    wikrt_peek_i64 (wikrt_alloc_medint initCx false 0 0 10).2.2
      (wikrt_alloc_medint initCx false 0 0 10).2.1 =
        (Err.BUFFSZ, -9223372036854775808) := by
  have hWF : initCx.WF := by constructor <;> norm_num [initCx]
  refine ⟨hWF,
    (c10_peek_saturates initCx true 0 3 0 hWF (by norm_num) (by norm_num)
      (by norm_num)).1 ⟨rfl, by norm_num⟩,
    (c10_peek_saturates initCx false 0 3 0 hWF (by norm_num) (by norm_num)
      (by norm_num)).2.1 ⟨rfl, by norm_num⟩,
    (c10_peek_saturates initCx true 0 0 10 hWF (by norm_num) (by norm_num)
      (by norm_num)).2.2.1 ⟨rfl, by norm_num⟩,
    (c10_peek_saturates initCx false 0 0 10 hWF (by norm_num) (by norm_num)
      (by norm_num)).2.2.2 ⟨rfl, by norm_num⟩⟩
